import Mathlib

/-!
Happy: the "Do you like me?" page (`src/script.js`).

A shallow embedding of the event handlers of `src/script.js` and the
properties of its specification.

Modelling conventions.

* A JavaScript string is the list of its UTF-16 code units (`JSString`).
  `String.prototype.trim`, the regular expression engine (without the `u`
  flag) and `String.prototype.replace` all work on code units.
* The page is a record (`State`) of the parts of the document the script
  reads or writes.  Every handler is a function on that record.
* What the host supplies (measured geometry, `Math.random()` results, the
  behaviour of the Web Audio calls, the passing of time) is an explicit
  argument of the handler or of the event.
* A JavaScript number is the rational it denotes.  Every arithmetic operation
  of the script is the exact operation followed by rounding to the nearest
  binary64 value, ties to even (`roundDouble`); `Math.floor` is `Int.floor`.
  Measured sizes are finite and not negative and random draws lie in [0,1), so
  infinities and NaN do not arise (`draw_finite` shows it for `moveNoButton`).
-/

namespace Happy

/-! ## Strings -/

/-- One UTF-16 code unit. -/
abbrev CodeUnit := Nat

/-- A JavaScript string: its sequence of UTF-16 code units. -/
abbrev JSString := List CodeUnit

/-- UTF-16 encoding of one code point. -/
def encodeChar (c : Char) : JSString :=
  if c.toNat < 0x10000 then [c.toNat]
  else [0xD800 + (c.toNat - 0x10000) / 0x400, 0xDC00 + (c.toNat - 0x10000) % 0x400]

/-- The JavaScript string written by a literal. -/
def js (s : String) : JSString :=
  s.toList.flatMap encodeChar

/-- ECMAScript `WhiteSpace` or `LineTerminator`: the code units matched by
`\s` in a regular expression and stripped by `trim`. -/
def isWhiteSpace (c : CodeUnit) : Bool :=
  c == 0x09 || c == 0x0A || c == 0x0B || c == 0x0C || c == 0x0D || c == 0x20 ||
  c == 0xA0 || c == 0x1680 || (0x2000 ≤ c && c ≤ 0x200A) || c == 0x2028 ||
  c == 0x2029 || c == 0x202F || c == 0x205F || c == 0x3000 || c == 0xFEFF

/-- The ranges `A-Z` and `a-z`. -/
def isAsciiLetter (c : CodeUnit) : Bool :=
  (0x41 ≤ c && c ≤ 0x5A) || (0x61 ≤ c && c ≤ 0x7A)

/-- The character class `[A-Za-z\s]`. -/
def nameClass (c : CodeUnit) : Bool :=
  isAsciiLetter c || isWhiteSpace c

/-- Method `String.prototype.trim`: strips white space and line terminators from both
ends. -/
def trim (s : JSString) : JSString :=
  ((s.dropWhile isWhiteSpace).reverse.dropWhile isWhiteSpace).reverse

/-! ## Regular expressions

The fragment of the ECMAScript pattern language used by `namePattern`: the
assertions `^` and `$` (no `m` flag) and a greedy bounded repetition of a
character class, matched by backtracking. -/

/-- One term of a pattern. -/
inductive Piece where
  /-- Assertion `^`: the current position is the start of the input. -/
  | inputStart
  /-- Assertion `$`: the current position is the end of the input. -/
  | inputEnd
  /-- Repetition `[...]{lo,hi}`: between `lo` and `hi` code units of the class, greedy. -/
  | classRepeat (cls : CodeUnit → Bool) (lo hi : Nat)

/-- Greedy bounded repetition with backtracking: consume one more code unit of
the class while allowed, and fall back to the continuation `k` (position,
remaining input) when the rest of the pattern fails after it. -/
def matchRepeat (cls : CodeUnit → Bool) (k : Nat → JSString → Bool) :
    Nat → Nat → Nat → JSString → Bool
  | lo, 0, pos, rest => lo == 0 && k pos rest
  | lo, _ + 1, pos, [] => lo == 0 && k pos []
  | lo, hi + 1, pos, c :: cs =>
    (cls c && matchRepeat cls k (lo - 1) hi (pos + 1) cs) || (lo == 0 && k pos (c :: cs))

/-- Matches the pieces in sequence at position `pos`, `rest` being the input
from `pos` on. -/
def matchPieces : List Piece → Nat → JSString → Bool
  | [], _, _ => true
  | Piece.inputStart :: ps, pos, rest => pos == 0 && matchPieces ps pos rest
  | Piece.inputEnd :: ps, pos, rest => rest.isEmpty && matchPieces ps pos rest
  | Piece.classRepeat cls lo hi :: ps, pos, rest =>
    matchRepeat cls (fun p r => matchPieces ps p r) lo hi pos rest

/-- Method `RegExp.prototype.test` of a non-global pattern: tries every start index
from 0 to the length of the input. -/
def regexTest (ps : List Piece) (input : JSString) : Bool :=
  (List.range (input.length + 1)).any (fun i => matchPieces ps i (input.drop i))

/-- The pattern `/^[A-Za-z\s]{5,20}$/` (script.js line 38). -/
def namePattern : List Piece :=
  [Piece.inputStart, Piece.classRepeat nameClass 5 20, Piece.inputEnd]

/-- Validation of the raw value of the name input (script.js lines 35-39):
`namePattern.test(nameInput.value.trim())`. -/
def validates (raw : JSString) : Bool :=
  regexTest namePattern (trim raw)

/-- The fixed message of line 40. -/
def validationMessage : String :=
  "Please enter your first name (5 letters)."

/-! ## Escaping -/

/-- The class `[&<"'>]` of line 259. -/
def needsEscape (c : CodeUnit) : Bool :=
  c == 38 || c == 60 || c == 34 || c == 39 || c == 62

/-- The object literal of line 259, keyed by code unit. -/
def escapeTable : List (CodeUnit × JSString) :=
  [(38, js "&amp;"), (60, js "&lt;"), (62, js "&gt;"), (34, js "&quot;"), (39, js "&#39;")]

/-- The replacer function of line 259: a property lookup; a missing key would
give `undefined`. -/
def escapeReplacer (m : CodeUnit) : JSString :=
  (escapeTable.lookup m).getD (js "undefined")

/-- Function `escapeHtml` (lines 258-260): every match of the global pattern is replaced
by the result of the replacer, everything else is kept. -/
def escapeHtml (raw : JSString) : JSString :=
  raw.flatMap (fun c => if needsEscape c then escapeReplacer c else [c])

/-- The five entities that `escapeHtml` writes. -/
def entities : List JSString :=
  [js "&amp;", js "&lt;", js "&gt;", js "&quot;", js "&#39;"]

/-- Decoding of the five character references, left to right: what an HTML
parser makes of text that holds no other markup.  `skip` code units are still
part of the reference decoded last. -/
def decodeFrom : Nat → JSString → JSString
  | _, [] => []
  | skip + 1, _ :: rest => decodeFrom skip rest
  | 0, c :: rest =>
    match escapeTable.find? (fun e => e.2.isPrefixOf (c :: rest)) with
    | some e => e.1 :: decodeFrom (e.2.length - 1) rest
    | none => c :: decodeFrom 0 rest

/-- The text denoted by markup that holds only text and the five references. -/
def decodeEntities (html : JSString) : JSString :=
  decodeFrom 0 html

/-! ## Class lists -/

/-- Method `DOMTokenList.contains`. -/
def classContains (cls : List String) (t : String) : Bool :=
  cls.contains t

/-- Method `DOMTokenList.add`. -/
def classAdd (cls : List String) (t : String) : List String :=
  if cls.contains t then cls else cls ++ [t]

/-- Method `DOMTokenList.remove`. -/
def classRemove (cls : List String) (t : String) : List String :=
  cls.filter (fun x => x != t)

/-- Method `DOMTokenList.toggle`: removes the token when present, adds it otherwise. -/
def classToggle (cls : List String) (t : String) : List String :=
  if cls.contains t then classRemove cls t else cls ++ [t]

/-! ## Numbers -/

/-- Rounding of a rational to the nearest integer, a tie going to the even
one. -/
def roundHalfEven (t : ℚ) : ℤ :=
  if t - ⌊t⌋ < 1 / 2 then ⌊t⌋
  else if 1 / 2 < t - ⌊t⌋ then ⌊t⌋ + 1
  else if ⌊t⌋ % 2 = 0 then ⌊t⌋ else ⌊t⌋ + 1

/-- Exponent of the spacing of the binary64 values around `x > 0`: 52 below the
binary exponent of `x`, and -1074 at least (the subnormal range). -/
def ulpExponent (x : ℚ) : ℤ :=
  max (Int.log 2 x - 52) (-1074)

/-- Rounding of `x > 0` to the nearest binary64 value, ties to even. -/
def roundPos (x : ℚ) : ℚ :=
  (roundHalfEven (x / 2 ^ ulpExponent x) : ℚ) * 2 ^ ulpExponent x

/-- Rounding of a rational to the nearest binary64 value, ties to even. -/
def roundDouble (x : ℚ) : ℚ :=
  if 0 < x then roundPos x else if x < 0 then -roundPos (-x) else 0

/-- The finite binary64 values: an integer significand below `2^53` in absolute
value, scaled by a power of two with exponent from -1074 to 971. -/
def IsDouble (x : ℚ) : Prop :=
  ∃ k e : ℤ, |k| < 2 ^ 53 ∧ -1074 ≤ e ∧ e ≤ 971 ∧ x = k * 2 ^ e

/-- The largest finite binary64 value. -/
def maxDouble : ℚ :=
  (2 ^ 53 - 1) * 2 ^ (971 : ℤ)

/-- Exact results of this size or more round to an infinity. -/
def overflowBound : ℚ :=
  2 ^ (1024 : ℤ) - 2 ^ (970 : ℤ)

/-- The number written by a decimal literal of the script. -/
def literal (q : ℚ) : ℚ :=
  roundDouble q

/-- The operator `+` on numbers. -/
def fadd (x y : ℚ) : ℚ :=
  roundDouble (x + y)

/-- The operator `-` on numbers. -/
def fsub (x y : ℚ) : ℚ :=
  roundDouble (x - y)

/-- The operator `*` on numbers. -/
def fmul (x y : ℚ) : ℚ :=
  roundDouble (x * y)

/-- The operator `/` on numbers, for a divisor other than zero. -/
def fdiv (x y : ℚ) : ℚ :=
  roundDouble (x / y)

/-! ## The page -/

/-- A measured box: `getBoundingClientRect()` width and height, in pixels. -/
structure Size where
  width : ℚ
  height : ℚ
  deriving DecidableEq

/-- What `showQuestionFor` writes into the play card (lines 58-65) and what the
handlers change of it afterwards.  Markup and attributes that are the same in
every rendering are not recorded. -/
structure Question where
  /-- Identity of the rendered elements: callbacks keep the button they closed
  over, which may since have been replaced. -/
  render : Nat
  /-- The markup placed inside `#herName`. -/
  herName : JSString
  yesDisabled : Bool
  noDisabled : Bool
  yesLeft : ℚ
  yesTop : ℚ
  noLeft : ℚ
  noTop : ℚ
  /-- The `style.transform` of the no button. -/
  noTransform : String
  deriving DecidableEq

/-- A celebration panel appended by `respondYes`; its `againBtn` carries a
number of click listeners. -/
structure Overlay where
  againListeners : Nat
  deriving DecidableEq

/-- A heart particle in `heartsContainer`. -/
structure Heart where
  id : Nat
  left : ℚ
  top : ℚ
  scale : ℚ
  rotate : ℚ
  deriving DecidableEq

/-- What a pending `setTimeout` callback does. -/
inductive TimerAction where
  /-- The call `heart.remove()` (line 227). -/
  | removeHeart (id : Nat)
  /-- The assignment `noBtn.style.transform = ''` (line 167). -/
  | resetTransform (render : Nat)
  deriving DecidableEq

/-- A pending `setTimeout` callback and the time it is due, in ms. -/
structure Timer where
  due : Nat
  action : TimerAction
  deriving DecidableEq

/-- A pending `requestAnimationFrame` callback (lines 162-165). -/
structure Frame where
  render : Nat
  left : ℤ
  top : ℤ
  deriving DecidableEq

/-- The elements the script gives focus to or that report focus. -/
inductive Control where
  | nameInput
  | noBtn
  deriving DecidableEq

/-- The parts of the document that the script reads or writes. -/
structure State where
  /-- Value of `document.documentElement.classList`. -/
  rootClasses : List String
  /-- Value of `themeToggle.textContent`. -/
  themeIcon : String
  /-- Value of `nameInput.value`. -/
  nameValue : JSString
  /-- Value of `nameError.textContent`. -/
  nameError : String
  focused : Option Control
  /-- Value of `introCard.classList`. -/
  introClasses : List String
  /-- Value of `playCard.classList`. -/
  playClasses : List String
  /-- The question area of the play card, once rendered. -/
  question : Option Question
  /-- The celebration panels of the play card, in document order. -/
  overlays : List Overlay
  /-- Number of renderings of the question so far. -/
  renderSeq : Nat
  /-- The children of `heartsContainer`. -/
  hearts : List Heart
  /-- Number of hearts created so far. -/
  heartSeq : Nat
  /-- The `count` of every call of `spawnHearts`, in call order. -/
  spawnLog : List Nat
  /-- Current time, in ms. -/
  now : Nat
  timers : List Timer
  frames : List Frame
  /-- Number of oscillators started. -/
  tones : Nat
  /-- Number of `console.warn` notices. -/
  warnings : Nat
  deriving DecidableEq

/-- The page as loaded: intro card shown, play card hidden and empty. -/
def initialPage : State :=
  { rootClasses := [], themeIcon := "🌞", nameValue := [], nameError := "", focused := none,
    introClasses := ["card"], playClasses := ["card", "hidden"], question := none,
    overlays := [], renderSeq := 0, hearts := [], heartSeq := 0, spawnLog := [], now := 0,
    timers := [], frames := [], tones := 0, warnings := 0 }

/-- The display state of the specification, read off the play card. -/
inductive Display where
  | intro
  | prompt
  | celebrating
  deriving DecidableEq, Repr

/-- Position in the order Intro < Prompt < Celebrating. -/
def Display.rank : Display → Nat
  | Display.intro => 0
  | Display.prompt => 1
  | Display.celebrating => 2

/-- Celebrating when a celebration panel is in the play card, Prompt when only
the question is, Intro before that. -/
def displayState (s : State) : Display :=
  if s.overlays.isEmpty then
    if s.question.isSome then Display.prompt else Display.intro
  else Display.celebrating

/-! ## Theme toggle (lines 23-27) -/

/-- The click handler of the theme toggle. -/
def themeToggleClick (s : State) : State :=
  let cls := classToggle s.rootClasses "dark-mode"
  { s with rootClasses := cls,
           themeIcon := if classContains cls "dark-mode" then "🌙" else "🌞" }

/-- The dark-mode flag of the document root. -/
def darkMode (s : State) : Bool :=
  classContains s.rootClasses "dark-mode"

/-! ## The question area (lines 53-139) -/

/-- Function `placeInitialButtons` (lines 129-139). -/
def placeInitialButtons (area : Size) (yesOffsetHeight : ℚ) (q : Question) : Question :=
  let top := max 6 (fdiv (fsub area.height yesOffsetHeight) 2)
  { q with yesTop := top, yesLeft := max 10 (fmul area.width (literal (20 / 100))),
           noTop := top, noLeft := max 10 (fmul area.width (literal (62 / 100))) }

/-- Function `showQuestionFor` (lines 53-69) with `initButtons` (lines 74-124): hides the
intro card, shows the play card, replaces its whole content by the question
with fresh buttons, and places them.  `area` and `yesOffsetHeight` are the
measurements taken by `placeInitialButtons`. -/
def showQuestionFor (area : Size) (yesOffsetHeight : ℚ) (name : JSString) (s : State) : State :=
  { s with introClasses := classAdd s.introClasses "hidden",
           playClasses := classRemove s.playClasses "hidden",
           question := some (placeInitialButtons area yesOffsetHeight
             { render := s.renderSeq, herName := escapeHtml name, yesDisabled := false,
               noDisabled := false, yesLeft := 0, yesTop := 0, noLeft := 0, noTop := 0,
               noTransform := "" }),
           overlays := [],
           renderSeq := s.renderSeq + 1 }

/-- The text a reader sees in the heading for the name. -/
def renderedName (q : Question) : JSString :=
  decodeEntities q.herName

/-! ## Name form (lines 32-48) -/

/-- The submit handler of the name form. -/
def submitHandler (area : Size) (yesOffsetHeight : ℚ) (s : State) : State :=
  let name := trim s.nameValue
  if !(regexTest namePattern name) then
    { s with nameError := validationMessage, focused := some Control.nameInput }
  else
    showQuestionFor area yesOffsetHeight name { s with nameError := "" }

/-- The page after the name `Anna Bell` has been typed and submitted on the
page as loaded. -/
def examplePrompt : State :=
  submitHandler ⟨300, 100⟩ 30 { initialPage with nameValue := js "Anna Bell" }

/-! ## The evasive button (lines 144-168) -/

/-- The position picked by `moveNoButton` (lines 145-158): `area` and `btn` are
the two measured rectangles, `r1` and `r2` the two results of `Math.random()`. -/
def moveNoButtonPos (area btn : Size) (r1 r2 : ℚ) : ℤ × ℤ :=
  let maxLeft := max 0 (fsub (fsub area.width btn.width) 6)
  let maxTop := max 0 (fsub (fsub area.height btn.height) 6)
  let randX := ⌊fmul r1 (fadd maxLeft 1)⌋
  let randY := ⌊fmul r2 (fadd maxTop 1)⌋
  (randX, randY)

/-- Function `moveNoButton` (lines 144-168) on the button of the current question:
sets the pop transform, asks for an animation frame that commits the new
position, and sets the 220 ms timer that resets the transform. -/
def moveNoButton (area btn : Size) (r1 r2 : ℚ) (s : State) : State :=
  match s.question with
  | none => s
  | some q =>
    let p := moveNoButtonPos area btn r1 r2
    { s with question := some { q with noTransform := "scale(1.05) rotate(-6deg)" },
             frames := s.frames ++ [{ render := q.render, left := p.1, top := p.2 }],
             timers := s.timers ++ [{ due := s.now + 220,
                                      action := TimerAction.resetTransform q.render }] }

/-- Runs one animation-frame callback (lines 163-164); a button that has been
replaced since is no longer on the page. -/
def runFrame (s : State) (f : Frame) : State :=
  { s with question := s.question.map (fun (q : Question) =>
      if q.render = f.render then { q with noLeft := f.left, noTop := f.top } else q) }

/-- The next animation frame: every pending callback runs, in request order. -/
def animationFrame (s : State) : State :=
  s.frames.foldl runFrame { s with frames := [] }

/-! ## Host services used by the celebration -/

/-- The Web Audio calls of `playChime`, in program order (lines 237-248). -/
inductive SoundCall where
  | construct
  | createOscillator
  | createGain
  | setType
  | setFrequency
  | setValueAtTime
  | linearRamp
  | exponentialRamp
  | connectGain
  | connectDestination
  | start
  | stop
  deriving DecidableEq, Repr

/-- What the host supplies while one handler runs. -/
structure Host where
  /-- The value of `window.innerWidth`. -/
  innerWidth : ℚ
  /-- The value of `window.innerHeight`. -/
  innerHeight : ℚ
  /-- Successive results of `Math.random()`. -/
  random : Nat → ℚ
  /-- Whether `window.AudioContext || window.webkitAudioContext` is defined. -/
  hasSoundContext : Bool
  /-- Which Web Audio calls throw. -/
  throwsAt : SoundCall → Bool

/-- An exception value. -/
inductive JSError where
  /-- Calling or reading through `undefined` or `null`. -/
  | typeError
  /-- An exception raised by the host inside a Web Audio call. -/
  | hostError (c : SoundCall)
  deriving DecidableEq, Repr

/-- Result of running statements that may throw: the exception, if any, and
the page as left at that point. -/
structure Outcome where
  thrown : Option JSError
  state : State

/-- The host with tone synthesis available and working, all else equal. -/
def Host.withSound (h : Host) : Host :=
  { h with hasSoundContext := true, throwsAt := fun _ => false }

/-- A host used in examples: a 1280 by 720 window, every random draw 1/2, tone
synthesis working. -/
def exampleHost : Host :=
  { innerWidth := 1280, innerHeight := 720, random := fun _ => 1 / 2,
    hasSoundContext := true, throwsAt := fun _ => false }

/-- A host used in examples: as `exampleHost`, without any audio context
constructor. -/
def muteHost : Host :=
  { exampleHost with hasSoundContext := false }

/-! ## Hearts (lines 210-230) -/

/-- The heart built by iteration `i` of the loop of `spawnHearts` (lines
215-222); `base` is the number of `Math.random()` results already used by the
running handler, `id` the identity of the new element. -/
def newHeart (h : Host) (base id i : Nat) : Heart :=
  { id := id,
    left := fadd (fmul (h.random (base + 4 * i)) (fmul h.innerWidth (literal (8 / 10))))
      (fmul h.innerWidth (literal (1 / 10))),
    top := fadd (fmul (h.random (base + 4 * i + 1)) (fmul h.innerHeight (literal (5 / 10))))
      (fmul h.innerHeight (literal (3 / 10))),
    scale := fadd (literal (85 / 100)) (fmul (h.random (base + 4 * i + 2)) (literal (4 / 10))),
    rotate := fsub (fmul (h.random (base + 4 * i + 3)) 40) 20 }

/-- One iteration of the loop of `spawnHearts` (lines 215-228): the heart is
appended to the container and its removal is scheduled. -/
def spawnHeart (h : Host) (base : Nat) (s : State) (i : Nat) : State :=
  { s with hearts := s.hearts ++ [newHeart h base s.heartSeq i],
           heartSeq := s.heartSeq + 1,
           timers := s.timers ++ [{ due := s.now + (1600 + i * 40),
                                    action := TimerAction.removeHeart s.heartSeq }] }

/-- Function `spawnHearts(count)` (lines 210-230). -/
def spawnHearts (h : Host) (base : Nat) (count : Nat) (s : State) : State :=
  (List.range count).foldl (spawnHeart h base) { s with spawnLog := s.spawnLog ++ [count] }

/-! ## Timers -/

/-- Runs the callback of one timer. -/
def fireTimer (s : State) (t : Timer) : State :=
  match t.action with
  | TimerAction.removeHeart id => { s with hearts := s.hearts.filter (fun x => x.id != id) }
  | TimerAction.resetTransform r =>
    { s with question := s.question.map (fun (q : Question) =>
        if q.render = r then { q with noTransform := "" } else q) }

/-- Lets `dt` ms pass: every timer due by then fires, once, and leaves the
queue. -/
def advance (dt : Nat) (s : State) : State :=
  (s.timers.filter (fun t => decide (t.due ≤ s.now + dt))).foldl fireTimer
    { s with now := s.now + dt,
             timers := s.timers.filter (fun t => !decide (t.due ≤ s.now + dt)) }

/-! ## Chime (lines 235-253) -/

/-- The calls made through the audio context once it exists. -/
def soundCalls : List SoundCall :=
  [SoundCall.createOscillator, SoundCall.createGain, SoundCall.setType,
   SoundCall.setFrequency, SoundCall.setValueAtTime, SoundCall.linearRamp,
   SoundCall.exponentialRamp, SoundCall.connectGain, SoundCall.connectDestination,
   SoundCall.start, SoundCall.stop]

/-- Effect of a call that returns. -/
def performCall (c : SoundCall) (s : State) : State :=
  match c with
  | SoundCall.start => { s with tones := s.tones + 1 }
  | _ => s

/-- Runs the calls in order until one throws. -/
def runCalls (h : Host) : List SoundCall → State → Outcome
  | [], s => { thrown := none, state := s }
  | c :: cs, s =>
    if h.throwsAt c then { thrown := some (JSError.hostError c), state := s }
    else runCalls h cs (performCall c s)

/-- The `try` block of `playChime` (lines 237-248). -/
def chimeBody (h : Host) (s : State) : Outcome :=
  if h.hasSoundContext then runCalls h (SoundCall.construct :: soundCalls) s
  else { thrown := some JSError.typeError, state := s }

/-- Function `playChime` (lines 235-253): the `try` block, and the `catch` clause
that logs a warning. -/
def playChime (h : Host) (s : State) : Outcome :=
  let r := chimeBody h s
  match r.thrown with
  | none => { thrown := none, state := r.state }
  | some _ => { thrown := none, state := { r.state with warnings := r.state.warnings + 1 } }

/-! ## Celebration (lines 173-205) -/

/-- The click listener that `respondYes` attaches to `againBtn` (lines
201-204). -/
def againListener (h : Host) (base : Nat) (s : State) : Outcome :=
  playChime h (spawnHearts h base 10 s)

/-- Lines 200-201: `document.getElementById('againBtn')` is the button of the
first celebration panel in document order, which gets one more click listener;
`none` when there is no such button (the call would go through `null`). -/
def attachAgainListener : List Overlay → Option (List Overlay)
  | [] => none
  | o :: os => some ({ o with againListeners := o.againListeners + 1 } :: os)

/-- Lines 194-197: both buttons of the question, when found, are disabled. -/
def disableButtons (q : Question) : Question :=
  { q with yesDisabled := true, noDisabled := true }

/-- Function `respondYes` (lines 173-205). -/
def respondYes (h : Host) (s : State) : Outcome :=
  let s1 : State := { s with overlays := s.overlays ++ [{ againListeners := 0 }] }
  let s2 := spawnHearts h 0 12 s1
  let r := playChime h s2
  match r.thrown with
  | some e => { thrown := some e, state := r.state }
  | none =>
    let s4 : State := { r.state with question := r.state.question.map disableButtons }
    match attachAgainListener s4.overlays with
    | none => { thrown := some JSError.typeError, state := s4 }
    | some os => { thrown := none, state := { s4 with overlays := os } }

/-- The page apart from what only tone synthesis touches (the tones played and
the warnings logged). -/
def pageOf (s : State) : State :=
  { s with tones := 0, warnings := 0 }

/-! ## Events -/

/-- The proximity signals the no button listens to (lines 94-120). -/
inductive Signal where
  | mouseenter
  | focus
  | pointerover
  | touchstart
  | click
  deriving DecidableEq, Repr

/-- A user or host event, with what the host supplies to its handler. -/
inductive Event where
  /-- A click on the theme toggle. -/
  | themeClick
  /-- The user edits the name input. -/
  | typeName (v : JSString)
  /-- The name form is submitted. -/
  | submit (area : Size) (yesOffsetHeight : ℚ)
  /-- A proximity signal on the no button. -/
  | noSignal (sig : Signal) (area btn : Size) (r1 r2 : ℚ)
  /-- A click on the yes button. -/
  | yesClick (h : Host)
  /-- A click on the `againBtn` of the `i`-th celebration panel. -/
  | againClick (i : Nat) (h : Host)
  /-- The next animation frame. -/
  | animationFrame
  /-- The passing of `dt` ms. -/
  | advance (dt : Nat)

/-- Dispatch of one event.  An event on an element that is not on the page does
not occur, and a disabled button receives no click.  The listeners of the theme
toggle and of the name form are attached once, on load, and never detached, so
their handlers run whenever the event occurs. -/
def step (s : State) : Event → State
  | Event.themeClick => themeToggleClick s
  | Event.typeName v => { s with nameValue := v }
  | Event.submit area yesOffsetHeight => submitHandler area yesOffsetHeight s
  | Event.noSignal sig area btn r1 r2 =>
    match s.question with
    | none => s
    | some q =>
      if sig = Signal.click && q.noDisabled then s
      else
        moveNoButton area btn r1 r2
          (if sig = Signal.focus then { s with focused := some Control.noBtn } else s)
  | Event.yesClick h =>
    match s.question with
    | none => s
    | some q => if q.yesDisabled then s else (respondYes h s).state
  | Event.againClick i h =>
    match s.overlays[i]? with
    | none => s
    | some o =>
      (List.range o.againListeners).foldl (fun st k => (againListener h (40 * k) st).state) s
  | Event.animationFrame => animationFrame s
  | Event.advance dt => advance dt s

/-- Whether event `e`, dispatched on page `s`, is a submission of the name form
that passes validation. -/
def acceptedSubmit (s : State) : Event → Bool
  | Event.submit _ _ => validates s.nameValue
  | _ => false

/-- The page after a sequence of events. -/
def run (s : State) (es : List Event) : State :=
  es.foldl step s

/-- Page `b` comes from page `a` without time passing: the clock is the same,
no timer was dropped, and every heart of `b` was in `a` or was created since. -/
def Grows (a b : State) : Prop :=
  b.now = a.now ∧ a.heartSeq ≤ b.heartSeq ∧ (∀ t ∈ a.timers, t ∈ b.timers) ∧
    ∀ x ∈ b.hearts, x ∈ a.hearts ∨ a.heartSeq ≤ x.id

/-- Heart `j`, whose removal is due at time `d`, is out of the container or
still has its timer pending. -/
def RemovalPending (j d : Nat) (st : State) : Prop :=
  j < st.heartSeq ∧
    ((∀ x ∈ st.hearts, x.id ≠ j) ∨
      (st.now < d ∧ ∃ t ∈ st.timers, t.action = TimerAction.removeHeart j ∧ t.due = d))

/-- Whether, along the events `es` dispatched from page `s`, no submission of
the name form is accepted at a moment when the display state is Celebrating. -/
def noResubmit (s : State) : List Event → Bool
  | [] => true
  | e :: es =>
    !(acceptedSubmit s e && decide (displayState s = Display.celebrating)) &&
      noResubmit (step s e) es

/-! ## Validation -/

theorem matchRepeat_inputEnd (cls : CodeUnit → Bool) :
    ∀ (hi lo pos : Nat) (rest : JSString),
      matchRepeat cls (fun p r => matchPieces [Piece.inputEnd] p r) lo hi pos rest = true ↔
        lo ≤ rest.length ∧ rest.length ≤ hi ∧ ∀ c ∈ rest, cls c = true := by
  intro hi
  induction hi with
  | zero =>
    intro lo pos rest
    cases rest with
    | nil => simp [matchRepeat, matchPieces]
    | cons c cs => simp [matchRepeat, matchPieces]
  | succ hi ih =>
    intro lo pos rest
    cases rest with
    | nil => simp [matchRepeat, matchPieces]
    | cons c cs =>
      have h := ih (lo - 1) (pos + 1) cs
      simp only [matchRepeat, Bool.or_eq_true, Bool.and_eq_true, h]
      simp [matchPieces]
      constructor
      · rintro ⟨hc, h1, h2, h3⟩
        exact ⟨by omega, h2, hc, h3⟩
      · rintro ⟨h1, h2, hc, h3⟩
        exact ⟨hc, by omega, h2, h3⟩

theorem regexTest_namePattern (name : JSString) :
    regexTest namePattern name = true ↔
      5 ≤ name.length ∧ name.length ≤ 20 ∧ ∀ c ∈ name, nameClass c = true := by
  unfold regexTest namePattern
  rw [List.any_eq_true]
  constructor
  · rintro ⟨i, _, hi⟩
    simp only [matchPieces, Bool.and_eq_true, beq_iff_eq] at hi
    obtain ⟨h0, hm⟩ := hi
    subst h0
    simpa using (matchRepeat_inputEnd nameClass 20 5 0 (List.drop 0 name)).1 hm
  · intro h
    refine ⟨0, by simp, ?_⟩
    simp only [matchPieces, Bool.and_eq_true, beq_iff_eq, true_and, List.drop_zero]
    exact (matchRepeat_inputEnd nameClass 20 5 0 name).2 h

theorem validates_iff (raw : JSString) :
    validates raw = true ↔
      5 ≤ (trim raw).length ∧ (trim raw).length ≤ 20 ∧
        ∀ c ∈ trim raw, isAsciiLetter c = true ∨ isWhiteSpace c = true := by
  unfold validates
  rw [regexTest_namePattern]
  simp [nameClass]

theorem validationMessage_ne_empty : validationMessage ≠ "" := by
  decide

/-- C1. For every input string `v`, the submit handler accepts `v` (it clears
the error and renders the prompt for `trim v`) if and only if `trim v` has
between 5 and 20 code units, each an ASCII letter or a white-space character;
and it rejects `v` (fixed message, focus back on the input, nothing else
changed) if and only if that condition fails. -/
theorem submit_accepts_iff (area : Size) (yesOffsetHeight : ℚ) (s : State) (v : JSString) :
    (submitHandler area yesOffsetHeight { s with nameValue := v } =
        showQuestionFor area yesOffsetHeight (trim v) { s with nameValue := v, nameError := "" } ↔
      (5 ≤ (trim v).length ∧ (trim v).length ≤ 20 ∧
        ∀ c ∈ trim v, isAsciiLetter c = true ∨ isWhiteSpace c = true)) ∧
    (submitHandler area yesOffsetHeight { s with nameValue := v } =
        { s with nameValue := v, nameError := validationMessage,
                 focused := some Control.nameInput } ↔
      ¬ (5 ≤ (trim v).length ∧ (trim v).length ≤ 20 ∧
        ∀ c ∈ trim v, isAsciiLetter c = true ∨ isWhiteSpace c = true)) := by
  have hv := validates_iff v
  unfold validates at hv
  by_cases hok : regexTest namePattern (trim v) = true
  · have hc := hv.1 hok
    have hs : submitHandler area yesOffsetHeight { s with nameValue := v } =
        showQuestionFor area yesOffsetHeight (trim v)
          { s with nameValue := v, nameError := "" } := by
      simp [submitHandler, hok]
    refine ⟨⟨fun _ => hc, fun _ => hs⟩, ⟨fun h => ?_, fun h => absurd hc h⟩⟩
    have he := congrArg State.nameError (hs.symm.trans h)
    simp [showQuestionFor] at he
    exact absurd he.symm validationMessage_ne_empty
  · have hc : ¬ (5 ≤ (trim v).length ∧ (trim v).length ≤ 20 ∧
        ∀ c ∈ trim v, isAsciiLetter c = true ∨ isWhiteSpace c = true) := fun h => hok (hv.2 h)
    have hs : submitHandler area yesOffsetHeight { s with nameValue := v } =
        { s with nameValue := v, nameError := validationMessage,
                 focused := some Control.nameInput } := by
      simp [submitHandler, hok]
    refine ⟨⟨fun h => ?_, fun h => absurd h hc⟩, ⟨fun _ => hc, fun _ => hs⟩⟩
    have he := congrArg State.nameError (hs.symm.trans h)
    simp [showQuestionFor] at he
    exact absurd he validationMessage_ne_empty

/-- C2, as stated, fails on the raw input: `"Anna "` has 5 letters and spaces
and is rejected; a 25-unit string of letters and spaces is accepted; and
`"Anna\tBell"`, which holds a tab, is accepted. -/
theorem validates_raw_counterexample :
    ((∀ c ∈ js "Anna ", isAsciiLetter c = true ∨ c = 32) ∧ (js "Anna ").length = 5 ∧
        validates (js "Anna ") = false) ∧
    ((∀ c ∈ js "   Anna Bell             ", isAsciiLetter c = true ∨ c = 32) ∧
        (js "   Anna Bell             ").length = 25 ∧
        validates (js "   Anna Bell             ") = true) ∧
    ((∃ c ∈ js "Anna\tBell", isAsciiLetter c = false ∧ c ≠ 32) ∧
        validates (js "Anna\tBell") = true) := by
  decide

/-- C2, amended. For every submitted string whose trimmed value consists only
of ASCII letters and white-space characters and has length 5 to 20, validation
succeeds; and for every submitted string whose trimmed value has a length
outside 5..20 or holds a code unit that is neither, validation fails. -/
theorem validates_trimmed (v : JSString) :
    ((∀ c ∈ trim v, isAsciiLetter c = true ∨ isWhiteSpace c = true) →
        5 ≤ (trim v).length → (trim v).length ≤ 20 → validates v = true) ∧
    (((trim v).length < 5 ∨ 20 < (trim v).length ∨
        ∃ c ∈ trim v, isAsciiLetter c = false ∧ isWhiteSpace c = false) →
      validates v = false) := by
  constructor
  · intro hc h5 h20
    exact (validates_iff v).2 ⟨h5, h20, hc⟩
  · intro h
    cases hval : validates v with
    | false => rfl
    | true =>
      obtain ⟨h5, h20, hc⟩ := (validates_iff v).1 hval
      rcases h with h | h | ⟨c, hmem, hl, hw⟩
      · omega
      · omega
      · rcases hc c hmem with h1 | h1
        · rw [hl] at h1; cases h1
        · rw [hw] at h1; cases h1

theorem validates_trimmed_witness :
    validates (js "  Anna Bell ") = true ∧ validates (js "Anna") = false ∧
      validates (js "Anna1Bell") = false :=
  ⟨(validates_trimmed (js "  Anna Bell ")).1 (by decide) (by decide) (by decide),
   (validates_trimmed (js "Anna")).2 (Or.inl (by decide)),
   (validates_trimmed (js "Anna1Bell")).2 (Or.inr (Or.inr (by decide)))⟩

/-- C3. For every input that fails validation, the submit handler sets the
error text to the fixed message and gives the input the focus, and changes
nothing else: the input value, the classes (visibility) of the intro card and
of the play card and the content of the play card are as before, so the
display state is unchanged and no prompt is rendered. -/
theorem submit_rejected (area : Size) (yesOffsetHeight : ℚ) (s : State)
    (h : validates s.nameValue = false) :
    submitHandler area yesOffsetHeight s =
        { s with nameError := validationMessage, focused := some Control.nameInput } ∧
      (submitHandler area yesOffsetHeight s).nameError =
        "Please enter your first name (5 letters)." ∧
      (submitHandler area yesOffsetHeight s).nameValue = s.nameValue ∧
      (submitHandler area yesOffsetHeight s).introClasses = s.introClasses ∧
      (submitHandler area yesOffsetHeight s).playClasses = s.playClasses ∧
      (submitHandler area yesOffsetHeight s).question = s.question ∧
      (submitHandler area yesOffsetHeight s).overlays = s.overlays ∧
      displayState (submitHandler area yesOffsetHeight s) = displayState s := by
  unfold validates at h
  have hs : submitHandler area yesOffsetHeight s =
      { s with nameError := validationMessage, focused := some Control.nameInput } := by
    simp [submitHandler, h]
  rw [hs]
  exact ⟨rfl, rfl, rfl, rfl, rfl, rfl, rfl, rfl⟩

theorem submit_rejected_witness :
    validates (js "Anna") = false ∧
      (submitHandler ⟨300, 100⟩ 30 { initialPage with nameValue := js "Anna" }).nameError =
        "Please enter your first name (5 letters)." ∧
      (submitHandler ⟨300, 100⟩ 30 { initialPage with nameValue := js "Anna" }).question = none ∧
      displayState (submitHandler ⟨300, 100⟩ 30 { initialPage with nameValue := js "Anna" }) =
        Display.intro :=
  have h := submit_rejected ⟨300, 100⟩ 30 { initialPage with nameValue := js "Anna" } (by decide)
  ⟨by decide, h.2.1, h.2.2.2.2.2.1, h.2.2.2.2.2.2.2⟩

/-! ## Rounding -/

theorem roundHalfEven_error (t : ℚ) :
    (roundHalfEven t : ℚ) - t ≤ 1 / 2 ∧ t - (roundHalfEven t : ℚ) ≤ 1 / 2 := by
  have h1 := Int.floor_le t
  have h2 := Int.lt_floor_add_one t
  unfold roundHalfEven
  split
  · constructor <;> linarith
  · split
    · push_cast; constructor <;> linarith
    · split
      · constructor <;> linarith
      · push_cast; constructor <;> linarith

theorem roundHalfEven_intCast (k : ℤ) : roundHalfEven (k : ℚ) = k := by
  simp [roundHalfEven]

theorem roundHalfEven_mono {s t : ℚ} (h : s ≤ t) : roundHalfEven s ≤ roundHalfEven t := by
  by_contra hlt
  push_neg at hlt
  have h1 := (roundHalfEven_error s).1
  have h2 := (roundHalfEven_error t).2
  have h3 : (roundHalfEven t : ℚ) + 1 ≤ (roundHalfEven s : ℚ) := by exact_mod_cast hlt
  have hst : s = t := by linarith
  rw [hst] at hlt
  exact lt_irrefl _ hlt

theorem roundHalfEven_near (k : ℤ) (t : ℚ) (h1 : (k : ℚ) ≤ t) (h2 : t < k + 1 / 2) :
    roundHalfEven t = k := by
  have e1 := (roundHalfEven_error t).1
  have e2 := (roundHalfEven_error t).2
  have a : (roundHalfEven t : ℚ) < k + 1 := by linarith
  have b : (k : ℚ) - 1 < roundHalfEven t := by linarith
  have a2 : roundHalfEven t < k + 1 := by exact_mod_cast a
  have b2 : k - 1 < roundHalfEven t := by exact_mod_cast b
  omega

theorem two_zpow_pos (e : ℤ) : (0 : ℚ) < 2 ^ e :=
  zpow_pos (by norm_num) e

theorem log_two_spec (x : ℚ) (hx : 0 < x) :
    (2 : ℚ) ^ Int.log 2 x ≤ x ∧ x < (2 : ℚ) ^ (Int.log 2 x + 1) := by
  have h1 := Int.zpow_log_le_self (b := 2) (r := x) (by norm_num) hx
  have h2 := Int.lt_zpow_succ_log_self (b := 2) (by norm_num) x
  simp only [Nat.cast_ofNat] at h1 h2
  exact ⟨h1, h2⟩

theorem log_two_eq (x : ℚ) (L : ℤ) (hx : 0 < x) (h1 : (2 : ℚ) ^ L ≤ x)
    (h2 : x < (2 : ℚ) ^ (L + 1)) : Int.log 2 x = L := by
  have a : L ≤ Int.log 2 x := by
    rw [← Int.zpow_le_iff_le_log (by norm_num) hx]
    simpa using h1
  have b : Int.log 2 x < L + 1 := by
    rw [← Int.lt_zpow_iff_log_lt (by norm_num) hx]
    simpa using h2
  omega

theorem roundPos_binade (x : ℚ) (L : ℤ) (hx : 0 < x) (h1 : (2 : ℚ) ^ L ≤ x)
    (h2 : x < (2 : ℚ) ^ (L + 1)) (hL : -1022 ≤ L) :
    roundPos x = (roundHalfEven (x / 2 ^ (L - 52)) : ℚ) * 2 ^ (L - 52) := by
  have hlog := log_two_eq x L hx h1 h2
  have he : ulpExponent x = L - 52 := by
    unfold ulpExponent
    rw [hlog]
    omega
  unfold roundPos
  rw [he]

theorem roundPos_error (x : ℚ) :
    roundPos x - x ≤ 2 ^ ulpExponent x / 2 ∧ x - roundPos x ≤ 2 ^ ulpExponent x / 2 := by
  have hu := two_zpow_pos (ulpExponent x)
  obtain ⟨e1, e2⟩ := roundHalfEven_error (x / 2 ^ ulpExponent x)
  have hx : x / 2 ^ ulpExponent x * 2 ^ ulpExponent x = x := div_mul_cancel₀ x (ne_of_gt hu)
  unfold roundPos
  constructor
  · have := mul_le_mul_of_nonneg_right e1 (le_of_lt hu)
    rw [sub_mul, hx] at this
    linarith
  · have := mul_le_mul_of_nonneg_right e2 (le_of_lt hu)
    rw [sub_mul, hx] at this
    linarith

theorem ulpExponent_le_one (x : ℚ) (hx : 0 < x) (h : x < 2 ^ (54 : ℤ)) : ulpExponent x ≤ 1 := by
  have hl : Int.log 2 x < 54 := by
    rw [← Int.lt_zpow_iff_log_lt (by norm_num) hx]
    simpa using h
  unfold ulpExponent
  omega

theorem roundPos_le_add_one (x : ℚ) (hx : 0 < x) (h : x < 2 ^ (54 : ℤ)) :
    roundPos x ≤ x + 1 := by
  have he := ulpExponent_le_one x hx h
  have hu : (2 : ℚ) ^ ulpExponent x ≤ 2 ^ (1 : ℤ) := zpow_le_zpow_right₀ (by norm_num) he
  have := (roundPos_error x).1
  norm_num at hu
  linarith

theorem roundPos_nonneg (x : ℚ) (hx : 0 < x) : 0 ≤ roundPos x := by
  unfold roundPos
  have hu := two_zpow_pos (ulpExponent x)
  have h0 : roundHalfEven 0 ≤ roundHalfEven (x / 2 ^ ulpExponent x) :=
    roundHalfEven_mono (le_of_lt (div_pos hx hu))
  have h00 : roundHalfEven 0 = 0 := by simpa using roundHalfEven_intCast 0
  rw [h00] at h0
  have : (0 : ℚ) ≤ roundHalfEven (x / 2 ^ ulpExponent x) := by exact_mod_cast h0
  exact mul_nonneg this (le_of_lt hu)

theorem two_zpow_int (k : ℤ) (hk : 0 ≤ k) : ∃ z : ℤ, (z : ℚ) = 2 ^ k := by
  refine ⟨2 ^ k.toNat, ?_⟩
  push_cast
  rw [← zpow_natCast, Int.toNat_of_nonneg hk]

theorem roundHalfEven_le_of_le_int (t : ℚ) (z : ℤ) (h : t ≤ z) : (roundHalfEven t : ℚ) ≤ z := by
  have := roundHalfEven_mono h
  rw [roundHalfEven_intCast] at this
  exact_mod_cast this

theorem roundHalfEven_ge_of_int_le (t : ℚ) (z : ℤ) (h : (z : ℚ) ≤ t) : (z : ℚ) ≤ roundHalfEven t := by
  have := roundHalfEven_mono h
  rw [roundHalfEven_intCast] at this
  exact_mod_cast this

theorem roundPos_le_zpow (x : ℚ) (B : ℤ) (hB : ulpExponent x ≤ B) (h : x ≤ 2 ^ B) :
    roundPos x ≤ 2 ^ B := by
  have hu := two_zpow_pos (ulpExponent x)
  obtain ⟨z, hz⟩ := two_zpow_int (B - ulpExponent x) (by omega)
  have hdiv : x / 2 ^ ulpExponent x ≤ z := by
    rw [hz, div_le_iff₀ hu, ← zpow_add₀ (by norm_num : (2 : ℚ) ≠ 0)]
    simpa using h
  have := roundHalfEven_le_of_le_int _ z hdiv
  unfold roundPos
  calc (roundHalfEven (x / 2 ^ ulpExponent x) : ℚ) * 2 ^ ulpExponent x
      ≤ z * 2 ^ ulpExponent x := mul_le_mul_of_nonneg_right this (le_of_lt hu)
    _ = 2 ^ B := by
      rw [hz, ← zpow_add₀ (by norm_num : (2 : ℚ) ≠ 0)]
      simp

theorem roundPos_ge_zpow (y : ℚ) (B : ℤ) (hB : ulpExponent y ≤ B) (h : 2 ^ B ≤ y) :
    2 ^ B ≤ roundPos y := by
  have hu := two_zpow_pos (ulpExponent y)
  obtain ⟨z, hz⟩ := two_zpow_int (B - ulpExponent y) (by omega)
  have hdiv : (z : ℚ) ≤ y / 2 ^ ulpExponent y := by
    rw [hz, le_div_iff₀ hu, ← zpow_add₀ (by norm_num : (2 : ℚ) ≠ 0)]
    simpa using h
  have := roundHalfEven_ge_of_int_le _ z hdiv
  unfold roundPos
  calc (2 : ℚ) ^ B = z * 2 ^ ulpExponent y := by
        rw [hz, ← zpow_add₀ (by norm_num : (2 : ℚ) ≠ 0)]
        simp
    _ ≤ (roundHalfEven (y / 2 ^ ulpExponent y) : ℚ) * 2 ^ ulpExponent y :=
        mul_le_mul_of_nonneg_right this (le_of_lt hu)

theorem roundPos_mono (x y : ℚ) (hx : 0 < x) (hxy : x ≤ y) : roundPos x ≤ roundPos y := by
  have hy : 0 < y := lt_of_lt_of_le hx hxy
  have hL : Int.log 2 x ≤ Int.log 2 y := Int.log_mono_right hx hxy
  by_cases heq : ulpExponent x = ulpExponent y
  · unfold roundPos
    rw [heq]
    have hu := two_zpow_pos (ulpExponent y)
    have hdiv : x / 2 ^ ulpExponent y ≤ y / 2 ^ ulpExponent y :=
      div_le_div_of_nonneg_right hxy (le_of_lt hu)
    have := roundHalfEven_mono hdiv
    exact mul_le_mul_of_nonneg_right (by exact_mod_cast this) (le_of_lt hu)
  · have hey : ulpExponent y = Int.log 2 y - 52 := by
      unfold ulpExponent at heq ⊢
      omega
    have hlt : Int.log 2 x + 1 ≤ Int.log 2 y := by
      unfold ulpExponent at heq
      omega
    have hex : ulpExponent x ≤ Int.log 2 y := by
      unfold ulpExponent at heq ⊢
      omega
    have hxB : x ≤ 2 ^ Int.log 2 y :=
      le_trans (le_of_lt (log_two_spec x hx).2) (zpow_le_zpow_right₀ (by norm_num) hlt)
    have hBy : (2 : ℚ) ^ Int.log 2 y ≤ y := (log_two_spec y hy).1
    exact le_trans (roundPos_le_zpow x _ hex hxB) (roundPos_ge_zpow y _ (by omega) hBy)

theorem roundDouble_nonneg (x : ℚ) (hx : 0 ≤ x) : 0 ≤ roundDouble x := by
  unfold roundDouble
  split
  · exact roundPos_nonneg x (by assumption)
  · split
    · linarith
    · exact le_refl _

theorem roundDouble_nonpos (x : ℚ) (hx : x ≤ 0) : roundDouble x ≤ 0 := by
  unfold roundDouble
  split
  · linarith
  · split
    · have := roundPos_nonneg (-x) (by linarith)
      linarith
    · exact le_refl _

theorem roundDouble_pos_eq (x : ℚ) (hx : 0 < x) : roundDouble x = roundPos x := by
  simp [roundDouble, hx]

theorem roundDouble_mono (x y : ℚ) (hx : 0 ≤ x) (hxy : x ≤ y) : roundDouble x ≤ roundDouble y := by
  rcases eq_or_lt_of_le hx with h0 | h0
  · rw [← h0]
    have : roundDouble 0 = 0 := by simp [roundDouble]
    rw [this]
    exact roundDouble_nonneg y (le_trans hx hxy)
  · rw [roundDouble_pos_eq x h0, roundDouble_pos_eq y (lt_of_lt_of_le h0 hxy)]
    exact roundPos_mono x y h0 hxy

theorem roundPos_fix (k e : ℤ) (hk : 0 < k) (hk2 : k < 2 ^ 53) (he : -1074 ≤ e) :
    roundPos (k * 2 ^ e) = k * 2 ^ e := by
  have hpe := two_zpow_pos e
  have hkq : (0 : ℚ) < k := by exact_mod_cast hk
  have hx : (0 : ℚ) < k * 2 ^ e := mul_pos hkq hpe
  have hlog : Int.log 2 ((k : ℚ) * 2 ^ e) < e + 53 := by
    rw [← Int.lt_zpow_iff_log_lt (by norm_num) hx]
    have h53 : (k : ℚ) < 2 ^ (53 : ℤ) := by
      have : (k : ℚ) < ((2 ^ 53 : ℤ) : ℚ) := by exact_mod_cast hk2
      norm_num at this ⊢
      exact this
    calc (k : ℚ) * 2 ^ e < 2 ^ (53 : ℤ) * 2 ^ e := mul_lt_mul_of_pos_right h53 hpe
      _ = ((2 : ℕ) : ℚ) ^ (e + 53) := by
        rw [← zpow_add₀ (by norm_num : (2 : ℚ) ≠ 0)]
        simp [add_comm]
  have hE : ulpExponent ((k : ℚ) * 2 ^ e) ≤ e := by
    unfold ulpExponent
    omega
  have hu := two_zpow_pos (ulpExponent ((k : ℚ) * 2 ^ e))
  obtain ⟨z, hz⟩ := two_zpow_int (e - ulpExponent ((k : ℚ) * 2 ^ e)) (by omega)
  have hdiv : (k : ℚ) * 2 ^ e / 2 ^ ulpExponent ((k : ℚ) * 2 ^ e) = ((k * z : ℤ) : ℚ) := by
    push_cast
    rw [hz, zpow_sub₀ (by norm_num : (2 : ℚ) ≠ 0)]
    field_simp
  unfold roundPos
  rw [hdiv, roundHalfEven_intCast, ← hdiv]
  exact div_mul_cancel₀ _ (ne_of_gt hu)

theorem roundDouble_fix (x : ℚ) (h : IsDouble x) : roundDouble x = x := by
  obtain ⟨k, e, hk, he, _, rfl⟩ := h
  have hpe := two_zpow_pos e
  rcases lt_trichotomy k 0 with hneg | hzero | hpos
  · have hx : (k : ℚ) * 2 ^ e < 0 := mul_neg_of_neg_of_pos (by exact_mod_cast hneg) hpe
    have hfix := roundPos_fix (-k) e (by omega) (by rw [abs_lt] at hk; omega) he
    simp only [roundDouble, not_lt_of_gt hx, hx, if_false, if_true]
    have e1 : -((k : ℚ) * 2 ^ e) = ((-k : ℤ) : ℚ) * 2 ^ e := by push_cast; ring
    rw [e1, hfix]
    push_cast
    ring
  · subst hzero
    simp [roundDouble]
  · have hx : (0 : ℚ) < k * 2 ^ e := mul_pos (by exact_mod_cast hpos) hpe
    rw [roundDouble_pos_eq _ hx]
    exact roundPos_fix k e hpos (by rw [abs_lt] at hk; omega) he

theorem isDouble_intCast (k : ℤ) (hk : |k| < 2 ^ 53) : IsDouble (k : ℚ) :=
  ⟨k, 0, hk, by norm_num, by norm_num, by simp⟩

theorem double_lt_one (r : ℚ) (h : IsDouble r) (h1 : r < 1) : r ≤ 1 - 2 ^ (-53 : ℤ) := by
  obtain ⟨k, e, hk, he, _, rfl⟩ := h
  have hpe := two_zpow_pos e
  rw [abs_lt] at hk
  by_cases hbig : -53 ≤ e
  · obtain ⟨z, hz⟩ := two_zpow_int (e + 53) (by omega)
    have hprod : (k : ℚ) * 2 ^ e * 2 ^ (53 : ℤ) = ((k * z : ℤ) : ℚ) := by
      push_cast
      rw [hz, zpow_add₀ (by norm_num : (2 : ℚ) ≠ 0)]
      ring
    have hlt : ((k * z : ℤ) : ℚ) < ((2 ^ 53 : ℤ) : ℚ) := by
      rw [← hprod]
      have := mul_lt_mul_of_pos_right h1 (two_zpow_pos 53)
      norm_num at this ⊢
      exact this
    have hlt2 : k * z < 2 ^ 53 := by exact_mod_cast hlt
    have hle : ((k * z : ℤ) : ℚ) ≤ ((2 ^ 53 - 1 : ℤ) : ℚ) := by
      have : k * z ≤ 2 ^ 53 - 1 := by omega
      exact_mod_cast this
    rw [← hprod] at hle
    have h53 : (2 : ℚ) ^ (-53 : ℤ) * 2 ^ (53 : ℤ) = 1 := by
      rw [← zpow_add₀ (by norm_num : (2 : ℚ) ≠ 0)]
      simp
    have hp := two_zpow_pos 53
    have : (k : ℚ) * 2 ^ e * 2 ^ (53 : ℤ) ≤ (1 - 2 ^ (-53 : ℤ)) * 2 ^ (53 : ℤ) := by
      rw [sub_mul, h53]
      norm_num at hle ⊢
      exact hle
    exact le_of_mul_le_mul_right this hp
  · have hk53 : (k : ℚ) ≤ 2 ^ (53 : ℤ) := by
      have : (k : ℚ) ≤ ((2 ^ 53 : ℤ) : ℚ) := by exact_mod_cast (le_of_lt hk.2)
      norm_num at this ⊢
      exact this
    have he54 : (2 : ℚ) ^ e ≤ 2 ^ (-54 : ℤ) := zpow_le_zpow_right₀ (by norm_num) (by omega)
    have : (k : ℚ) * 2 ^ e ≤ 2 ^ (53 : ℤ) * 2 ^ (-54 : ℤ) := by
      rcases le_or_lt (k : ℚ) 0 with hk0 | hk0
      · have : (k : ℚ) * 2 ^ e ≤ 0 := mul_nonpos_of_nonpos_of_nonneg hk0 (le_of_lt hpe)
        have : (0 : ℚ) ≤ 2 ^ (53 : ℤ) * 2 ^ (-54 : ℤ) := by positivity
        linarith
      · exact mul_le_mul hk53 he54 (le_of_lt hpe) (by positivity)
    norm_num at this ⊢
    linarith

theorem roundDouble_one : roundDouble 1 = 1 := by
  have := roundDouble_fix ((1 : ℤ) : ℚ) (isDouble_intCast 1 (by norm_num))
  simpa using this

theorem roundDouble_le_add_one (x : ℚ) (hx : 0 ≤ x) (h : x < 2 ^ (54 : ℤ)) :
    roundDouble x ≤ x + 1 := by
  rcases eq_or_lt_of_le hx with h0 | h0
  · rw [← h0]
    simp [roundDouble]
  · rw [roundDouble_pos_eq x h0]
    exact roundPos_le_add_one x h0 h

/-- Rounding just above a value of the grid whose spacing is at least 4. -/
theorem roundPos_grid_succ (L n : ℤ) (u : ℚ) (hL : 54 ≤ L) (hu : u = 2 ^ (L - 52))
    (hn1 : (4503599627370496 : ℚ) ≤ n) (hn2 : (n : ℚ) ≤ 9007199254740992) :
    roundPos (n * u + 1) = n * u := by
  have hu0 : 0 < u := by rw [hu]; exact two_zpow_pos _
  have hu4 : 4 ≤ u := by
    rw [hu]
    have : (2 : ℚ) ^ (2 : ℤ) ≤ 2 ^ (L - 52) := zpow_le_zpow_right₀ (by norm_num) (by omega)
    norm_num at this ⊢
    exact this
  have h2L : (2 : ℚ) ^ L = 4503599627370496 * u := by
    rw [hu, show L = 52 + (L - 52) by ring, zpow_add₀ (by norm_num : (2 : ℚ) ≠ 0)]
    norm_num
  have h2L1 : (2 : ℚ) ^ (L + 1) = 9007199254740992 * u := by
    rw [zpow_add₀ (by norm_num : (2 : ℚ) ≠ 0), h2L]
    norm_num
    ring
  have h2L2 : (2 : ℚ) ^ (L + 1 + 1) = 18014398509481984 * u := by
    rw [zpow_add₀ (by norm_num : (2 : ℚ) ≠ 0), h2L1]
    norm_num
    ring
  have hnu1 : 4503599627370496 * u ≤ n * u := mul_le_mul_of_nonneg_right hn1 (le_of_lt hu0)
  have hnu2 : (n : ℚ) * u ≤ 9007199254740992 * u := mul_le_mul_of_nonneg_right hn2 (le_of_lt hu0)
  have hxpos : (0 : ℚ) < n * u + 1 := by nlinarith
  by_cases hn : n < 9007199254740992
  · have hn3 : (n : ℚ) ≤ 9007199254740991 := by
      have : n ≤ 9007199254740991 := by omega
      exact_mod_cast this
    have hnu3 : (n : ℚ) * u ≤ 9007199254740991 * u := mul_le_mul_of_nonneg_right hn3 (le_of_lt hu0)
    rw [roundPos_binade (n * u + 1) L hxpos (by rw [h2L]; linarith) (by rw [h2L1]; linarith)
      (by omega), ← hu]
    have hdiv : ((n : ℚ) * u + 1) / u = n + 1 / u := by
      field_simp
    have hinv : 1 / u ≤ 1 / 4 := one_div_le_one_div_of_le (by norm_num) hu4
    have hinv0 : 0 < 1 / u := one_div_pos.2 hu0
    rw [hdiv, roundHalfEven_near n _ (by linarith) (by linarith)]
  · have hneq : n = 9007199254740992 := by
      have : (n : ℚ) ≤ ((9007199254740992 : ℤ) : ℚ) := by simpa using hn2
      have : n ≤ 9007199254740992 := by exact_mod_cast this
      omega
    subst hneq
    have hu2 : (2 : ℚ) ^ (L + 1 - 52) = 2 * u := by
      rw [hu, show L + 1 - 52 = 1 + (L - 52) by ring, zpow_add₀ (by norm_num : (2 : ℚ) ≠ 0)]
      norm_num
    push_cast at hxpos ⊢
    rw [roundPos_binade (9007199254740992 * u + 1) (L + 1) hxpos (by rw [h2L1]; linarith)
      (by rw [h2L2]; linarith) (by omega), hu2]
    have hdiv : (9007199254740992 * u + 1) / (2 * u) = ((4503599627370496 : ℤ) : ℚ) + 1 / (2 * u) := by
      field_simp
      ring
    have hinv : 1 / (2 * u) ≤ 1 / 8 := one_div_le_one_div_of_le (by norm_num) (by linarith)
    have hinv0 : 0 < 1 / (2 * u) := one_div_pos.2 (by linarith)
    rw [hdiv, roundHalfEven_near 4503599627370496 _ (by linarith) (by linarith)]
    push_cast
    ring

theorem roundPos_grid_pred (L n : ℤ) (u : ℚ) (hL : 54 ≤ L) (hu : u = 2 ^ (L - 52))
    (hn1 : (4503599627370497 : ℚ) ≤ n) (hn2 : (n : ℚ) ≤ 9007199254740992) :
    roundPos ((n : ℚ) * (1 - 1 / 9007199254740992) * u) = (n - 1) * u := by
  have hu0 : 0 < u := by rw [hu]; exact two_zpow_pos _
  have h2L : (2 : ℚ) ^ L = 4503599627370496 * u := by
    rw [hu, show L = 52 + (L - 52) by ring, zpow_add₀ (by norm_num : (2 : ℚ) ≠ 0)]
    norm_num
  have h2L1 : (2 : ℚ) ^ (L + 1) = 9007199254740992 * u := by
    rw [zpow_add₀ (by norm_num : (2 : ℚ) ≠ 0), h2L]
    norm_num
    ring
  have ht1 : (4503599627370496 : ℚ) ≤ (n : ℚ) * (1 - 1 / 9007199254740992) := by linarith
  have ht2 : (n : ℚ) * (1 - 1 / 9007199254740992) < 9007199254740992 := by linarith
  have hw1 : 4503599627370496 * u ≤ (n : ℚ) * (1 - 1 / 9007199254740992) * u :=
    mul_le_mul_of_nonneg_right ht1 (le_of_lt hu0)
  have hw2 : (n : ℚ) * (1 - 1 / 9007199254740992) * u < 9007199254740992 * u :=
    mul_lt_mul_of_pos_right ht2 hu0
  have hwpos : 0 < (n : ℚ) * (1 - 1 / 9007199254740992) * u := by nlinarith
  rw [roundPos_binade _ L hwpos (by rw [h2L]; exact hw1) (by rw [h2L1]; exact hw2) (by omega),
    ← hu, mul_div_cancel_right₀ _ (ne_of_gt hu0)]
  have hcast : ((n - 1 : ℤ) : ℚ) = (n : ℚ) - 1 := by push_cast; ring
  rw [roundHalfEven_near (n - 1) _ (by rw [hcast]; linarith) (by rw [hcast]; linarith), hcast]

/-- The draw stays within the range for ranges of `2^54` and more, where the
spacing of the binary64 values is 4 or more. -/
theorem draw_le_large (d r : ℚ) (hd : 2 ^ (54 : ℤ) ≤ d) (hr0 : 0 ≤ r)
    (hr : r ≤ 1 - 2 ^ (-53 : ℤ)) :
    roundDouble (r * roundDouble (roundDouble (roundDouble d - 6) + 1)) ≤ d := by
  have hdpos : 0 < d := lt_of_lt_of_le (two_zpow_pos 54) hd
  obtain ⟨hlo, hhi⟩ := log_two_spec d hdpos
  have hL : 54 ≤ Int.log 2 d := by
    rw [← Int.zpow_le_iff_le_log (by norm_num) hdpos]
    simpa using hd
  generalize Int.log 2 d = L at hlo hhi hL
  obtain ⟨u, hu⟩ : ∃ u : ℚ, u = 2 ^ (L - 52) := ⟨_, rfl⟩
  have hu0 : 0 < u := by rw [hu]; exact two_zpow_pos _
  have hu4 : 4 ≤ u := by
    rw [hu]
    have : (2 : ℚ) ^ (2 : ℤ) ≤ 2 ^ (L - 52) := zpow_le_zpow_right₀ (by norm_num) (by omega)
    norm_num at this ⊢
    exact this
  have h2L : (2 : ℚ) ^ L = 4503599627370496 * u := by
    rw [hu, show L = 52 + (L - 52) by ring, zpow_add₀ (by norm_num : (2 : ℚ) ≠ 0)]
    norm_num
  have h2L1 : (2 : ℚ) ^ (L + 1) = 9007199254740992 * u := by
    rw [zpow_add₀ (by norm_num : (2 : ℚ) ≠ 0), h2L]
    norm_num
    ring
  rw [h2L] at hlo
  rw [h2L1] at hhi
  obtain ⟨n, hn⟩ : ∃ n : ℤ, n = roundHalfEven (d / u) := ⟨_, rfl⟩
  have hg : roundDouble d = n * u := by
    rw [roundDouble_pos_eq d hdpos,
      roundPos_binade d L hdpos (by rw [h2L]; exact hlo) (by rw [h2L1]; exact hhi) (by omega),
      ← hu, ← hn]
  have hdu : d / u * u = d := div_mul_cancel₀ d (ne_of_gt hu0)
  have hn1 : (4503599627370496 : ℚ) ≤ n := by
    have h := roundHalfEven_ge_of_int_le (d / u) 4503599627370496
      (by rw [le_div_iff₀ hu0]; exact_mod_cast hlo)
    rw [← hn] at h
    exact_mod_cast h
  have hn2 : (n : ℚ) ≤ 9007199254740992 := by
    have h := roundHalfEven_le_of_le_int (d / u) 9007199254740992
      (by rw [div_le_iff₀ hu0]; exact_mod_cast (le_of_lt hhi))
    rw [← hn] at h
    exact_mod_cast h
  have herr : (n : ℚ) * u - d ≤ u / 2 := by
    have h := (roundHalfEven_error (d / u)).1
    rw [← hn] at h
    have := mul_le_mul_of_nonneg_right h (le_of_lt hu0)
    rw [sub_mul, hdu] at this
    linarith
  have hnu1 : 4503599627370496 * u ≤ n * u := mul_le_mul_of_nonneg_right hn1 (le_of_lt hu0)
  have hsucc : roundDouble ((n : ℚ) * u + 1) = n * u := by
    rw [roundDouble_pos_eq _ (by nlinarith)]
    exact roundPos_grid_succ L n u hL hu hn1 hn2
  rw [hg]
  have hm : roundDouble ((n : ℚ) * u - 6) ≤ n * u :=
    le_trans (roundDouble_mono ((n : ℚ) * u - 6) ((n : ℚ) * u + 1) (by nlinarith) (by linarith))
      (le_of_eq hsucc)
  have hm0 : 0 ≤ roundDouble ((n : ℚ) * u - 6) := roundDouble_nonneg _ (by nlinarith)
  have hX : roundDouble (roundDouble ((n : ℚ) * u - 6) + 1) ≤ n * u :=
    le_trans (roundDouble_mono (roundDouble ((n : ℚ) * u - 6) + 1) ((n : ℚ) * u + 1)
      (by linarith) (by linarith)) (le_of_eq hsucc)
  have hX0 : 0 ≤ roundDouble (roundDouble ((n : ℚ) * u - 6) + 1) :=
    roundDouble_nonneg _ (by linarith)
  generalize roundDouble (roundDouble ((n : ℚ) * u - 6) + 1) = X at hX hX0
  have hr1 : r ≤ 1 := by
    have := two_zpow_pos (-53)
    linarith
  have hrX0 : 0 ≤ r * X := mul_nonneg hr0 hX0
  have hrX : r * X ≤ X := by nlinarith
  by_cases hcase : (n : ℚ) * u ≤ d
  · calc roundDouble (r * X) ≤ roundDouble ((n : ℚ) * u + 1) :=
          roundDouble_mono _ _ hrX0 (by linarith)
      _ = n * u := hsucc
      _ ≤ d := hcase
  · push_neg at hcase
    have hn3 : (4503599627370497 : ℚ) ≤ n := by
      have h1 : 4503599627370496 * u < n * u := lt_of_le_of_lt hlo hcase
      have h2 : (4503599627370496 : ℚ) < n := lt_of_mul_lt_mul_right h1 (le_of_lt hu0)
      have h3 : (4503599627370496 : ℤ) < n := by exact_mod_cast h2
      have h4 : (4503599627370497 : ℤ) ≤ n := by omega
      exact_mod_cast h4
    have hc : (2 : ℚ) ^ (-53 : ℤ) = 1 / 9007199254740992 := by norm_num
    rw [hc] at hr
    have hrw : r * X ≤ (n : ℚ) * (1 - 1 / 9007199254740992) * u := by
      have h1 : r * X ≤ (1 - 1 / 9007199254740992) * X :=
        mul_le_mul_of_nonneg_right hr hX0
      have h2 : (1 - 1 / 9007199254740992 : ℚ) * X ≤ (1 - 1 / 9007199254740992) * (n * u) :=
        mul_le_mul_of_nonneg_left hX (by norm_num)
      calc r * X ≤ (1 - 1 / 9007199254740992) * (n * u) := le_trans h1 h2
        _ = (n : ℚ) * (1 - 1 / 9007199254740992) * u := by ring
    have hwpos : 0 < (n : ℚ) * (1 - 1 / 9007199254740992) * u := by
      have : (0 : ℚ) < (n : ℚ) * (1 - 1 / 9007199254740992) := by linarith
      exact mul_pos this hu0
    calc roundDouble (r * X)
        ≤ roundDouble ((n : ℚ) * (1 - 1 / 9007199254740992) * u) :=
          roundDouble_mono _ _ hrX0 hrw
      _ = (n - 1) * u := by
          rw [roundDouble_pos_eq _ hwpos]
          exact roundPos_grid_pred L n u hL hu hn3 hn2
      _ ≤ d := by linarith

/-- The draw stays within the range for ranges below `2^54`, where every
rounding moves its argument by at most 1. -/
theorem draw_le_small (d r : ℚ) (hd0 : 0 ≤ d) (hd : d < 2 ^ (54 : ℤ)) (hr0 : 0 ≤ r)
    (hr1 : r ≤ 1) (hm : 0 < roundDouble (roundDouble d - 6)) :
    roundDouble (r * roundDouble (roundDouble (roundDouble d - 6) + 1)) ≤ d := by
  have hg := roundDouble_le_add_one d hd0 hd
  have hg6 : 0 < roundDouble d - 6 := by
    by_contra hneg
    push_neg at hneg
    have := roundDouble_nonpos _ hneg
    linarith
  have hm1 := roundDouble_le_add_one (roundDouble d - 6) (le_of_lt hg6) (by linarith)
  have hX := roundDouble_le_add_one (roundDouble (roundDouble d - 6) + 1) (by linarith)
    (by linarith)
  have hX0 : 0 ≤ roundDouble (roundDouble (roundDouble d - 6) + 1) :=
    roundDouble_nonneg _ (by linarith)
  generalize roundDouble (roundDouble (roundDouble d - 6) + 1) = X at hX hX0
  have hrX0 : 0 ≤ r * X := mul_nonneg hr0 hX0
  have hrX : r * X ≤ X := by nlinarith
  have hy := roundDouble_le_add_one (r * X) hrX0 (by linarith)
  linarith

theorem draw_nonneg (a b r : ℚ) (hr0 : 0 ≤ r) :
    0 ≤ ⌊roundDouble (r * roundDouble (max 0 (roundDouble (roundDouble (a - b) - 6)) + 1))⌋ := by
  apply Int.floor_nonneg.2
  apply roundDouble_nonneg
  apply mul_nonneg hr0
  apply roundDouble_nonneg
  have := le_max_left (0 : ℚ) (roundDouble (roundDouble (a - b) - 6))
  linarith

theorem draw_le (a b r : ℚ) (hr : IsDouble r) (hr0 : 0 ≤ r) (hr1 : r < 1) (hfit : b ≤ a) :
    ((⌊roundDouble (r * roundDouble (max 0 (roundDouble (roundDouble (a - b) - 6)) + 1))⌋ : ℤ) : ℚ)
      ≤ a - b := by
  have hd0 : 0 ≤ a - b := by linarith
  rcases le_or_lt (roundDouble (roundDouble (a - b) - 6)) 0 with hm | hm
  · rw [max_eq_left hm, zero_add, roundDouble_one, mul_one, roundDouble_fix r hr]
    have hfl : ⌊r⌋ = 0 := by
      rw [Int.floor_eq_iff]
      constructor
      · simpa using hr0
      · simpa using hr1
    rw [hfl]
    simpa using hd0
  · rw [max_eq_right (le_of_lt hm)]
    refine le_trans (Int.floor_le _) ?_
    rcases lt_or_le (a - b) (2 ^ (54 : ℤ)) with hsmall | hlarge
    · exact draw_le_small (a - b) r hd0 hsmall hr0 (le_of_lt hr1) hm
    · exact draw_le_large (a - b) r hlarge hr0 (double_lt_one r hr hr1)

theorem maxDouble_pos : 0 < maxDouble := by
  unfold maxDouble
  positivity

theorem roundPos_maxDouble_succ : roundPos (maxDouble + 1) = maxDouble := by
  have hb := roundPos_binade (maxDouble + 1) 1023 (by unfold maxDouble; positivity)
    (by unfold maxDouble; norm_num) (by unfold maxDouble; norm_num) (by norm_num)
  have hn : roundHalfEven ((maxDouble + 1) / 2 ^ (1023 - 52 : ℤ)) = 9007199254740991 :=
    roundHalfEven_near 9007199254740991 _ (by unfold maxDouble; norm_num)
      (by unfold maxDouble; norm_num)
  rw [hb, hn]
  unfold maxDouble
  norm_num

theorem roundDouble_le_maxDouble (x : ℚ) (hx : x ≤ maxDouble + 1) :
    roundDouble x ≤ maxDouble := by
  rcases le_or_lt x 0 with h0 | h0
  · exact le_trans (roundDouble_nonpos x h0) (le_of_lt maxDouble_pos)
  · have hm := roundDouble_mono x (maxDouble + 1) (le_of_lt h0) hx
    rw [roundDouble_pos_eq (maxDouble + 1) (by linarith [maxDouble_pos]),
      roundPos_maxDouble_succ] at hm
    exact hm

theorem roundDouble_neg (x : ℚ) : roundDouble (-x) = -roundDouble x := by
  rcases lt_trichotomy x 0 with h | h | h
  · have h1 : 0 < -x := by linarith
    simp [roundDouble, h, h1, not_lt_of_gt h]
  · subst h
    simp [roundDouble]
  · have h1 : -x < 0 := by linarith
    simp [roundDouble, h, h1, not_lt_of_gt h1]

theorem roundDouble_abs_le (x : ℚ) (hx : |x| ≤ maxDouble) : |roundDouble x| ≤ maxDouble := by
  rw [abs_le] at hx ⊢
  constructor
  · have := roundDouble_le_maxDouble (-x) (by linarith)
    rw [roundDouble_neg] at this
    linarith
  · exact roundDouble_le_maxDouble x (by linarith)

theorem maxDouble_lt_overflowBound : maxDouble + 6 < overflowBound := by
  unfold maxDouble overflowBound
  norm_num

/-- No operation of `moveNoButton` overflows: for measured sizes that are
finite and not negative and a draw in [0,1], each of the four exact results
that the script rounds on one axis is below the overflow bound in absolute
value. -/
theorem draw_finite (a b r : ℚ) (ha : 0 ≤ a ∧ a ≤ maxDouble) (hb : 0 ≤ b ∧ b ≤ maxDouble)
    (hr : 0 ≤ r ∧ r ≤ 1) :
    |a - b| < overflowBound ∧
      |roundDouble (a - b) - 6| < overflowBound ∧
      |max 0 (roundDouble (roundDouble (a - b) - 6)) + 1| < overflowBound ∧
      |r * roundDouble (max 0 (roundDouble (roundDouble (a - b) - 6)) + 1)| < overflowBound := by
  have hbound := maxDouble_lt_overflowBound
  have hmp := maxDouble_pos
  have hd : |a - b| ≤ maxDouble := by
    rw [abs_le]
    constructor <;> linarith [ha.1, ha.2, hb.1, hb.2]
  have hg := roundDouble_abs_le (a - b) hd
  rw [abs_le] at hg
  have hm0 : roundDouble (roundDouble (a - b) - 6) ≤ maxDouble :=
    roundDouble_le_maxDouble _ (by linarith)
  have hm1 : 0 ≤ max 0 (roundDouble (roundDouble (a - b) - 6)) := le_max_left _ _
  have hm2 : max 0 (roundDouble (roundDouble (a - b) - 6)) ≤ maxDouble :=
    max_le (le_of_lt hmp) hm0
  generalize max 0 (roundDouble (roundDouble (a - b) - 6)) = m at hm1 hm2
  have hX0 : 0 ≤ roundDouble (m + 1) := roundDouble_nonneg _ (by linarith)
  have hX : roundDouble (m + 1) ≤ maxDouble := roundDouble_le_maxDouble _ (by linarith)
  have hrX0 : 0 ≤ r * roundDouble (m + 1) := mul_nonneg hr.1 hX0
  have hrX : r * roundDouble (m + 1) ≤ roundDouble (m + 1) := by nlinarith [hr.2]
  refine ⟨lt_of_le_of_lt hd (by linarith), ?_, ?_, ?_⟩
  · rw [abs_lt]
    constructor <;> linarith
  · rw [abs_lt]
    constructor <;> linarith
  · rw [abs_lt]
    constructor <;> linarith

/-! ## The evasive button -/

theorem moveNoButton_commit (area btn : Size) (r1 r2 : ℚ) (s : State) (q : Question)
    (hq : s.question = some q) (hf : s.frames = []) :
    (animationFrame (moveNoButton area btn r1 r2 s)).question =
      some { q with noTransform := "scale(1.05) rotate(-6deg)",
                    noLeft := (moveNoButtonPos area btn r1 r2).1,
                    noTop := (moveNoButtonPos area btn r1 r2).2 } := by
  simp [moveNoButton, animationFrame, runFrame, hq, hf]

theorem moveNoButtonPos_fst (area btn : Size) (r1 r2 : ℚ) :
    (moveNoButtonPos area btn r1 r2).1 =
      ⌊roundDouble (r1 * roundDouble
        (max 0 (roundDouble (roundDouble (area.width - btn.width) - 6)) + 1))⌋ :=
  rfl

theorem moveNoButtonPos_snd (area btn : Size) (r1 r2 : ℚ) :
    (moveNoButtonPos area btn r1 r2).2 =
      ⌊roundDouble (r2 * roundDouble
        (max 0 (roundDouble (roundDouble (area.height - btn.height) - 6)) + 1))⌋ :=
  rfl

theorem roundDouble_intCast (k : ℤ) (hk : |k| < 2 ^ 53) : roundDouble (k : ℚ) = k :=
  roundDouble_fix _ (isDouble_intCast k hk)

theorem draw_clamped :
    ⌊roundDouble (0 * roundDouble
      (max 0 (roundDouble (roundDouble ((50 : ℚ) - 100) - 6)) + 1))⌋ = 0 := by
  have e1 : roundDouble ((50 : ℚ) - 100) = -50 := by
    have := roundDouble_intCast (-50) (by norm_num)
    norm_num at this ⊢
    exact this
  have e2 : roundDouble ((-50 : ℚ) - 6) = -56 := by
    have := roundDouble_intCast (-56) (by norm_num)
    norm_num at this ⊢
    exact this
  have e3 : max (0 : ℚ) (-56) = 0 := by norm_num
  have e4 : roundDouble (0 : ℚ) = 0 := by simp [roundDouble]
  rw [e1, e2, e3, zero_mul, e4]
  simp

/-- C4, as stated, fails when the button does not fit: in a 50 px wide
container a 100 px wide button is placed at `left = 0`, which is more than
`areaWidth - buttonWidth = -50`. -/
theorem moveNoButtonPos_counterexample :
    (moveNoButtonPos ⟨50, 40⟩ ⟨100, 20⟩ 0 0).1 = 0 ∧
      ¬ (0 ≤ (moveNoButtonPos ⟨50, 40⟩ ⟨100, 20⟩ 0 0).1 ∧
        (((moveNoButtonPos ⟨50, 40⟩ ⟨100, 20⟩ 0 0).1 : ℤ) : ℚ) ≤ 50 - 100) := by
  have h0 : (moveNoButtonPos ⟨50, 40⟩ ⟨100, 20⟩ 0 0).1 = 0 := by
    rw [moveNoButtonPos_fst]
    exact draw_clamped
  refine ⟨h0, ?_⟩
  rw [h0]
  norm_num

/-- C4, amended. For every container size, every button size and every pair
of random draws in [0,1), the position picked by `moveNoButton` satisfies
`0 ≤ left` and `0 ≤ top`; `left ≤ areaWidth - buttonWidth` holds if and only if
the button is no wider than the container, and `top ≤ areaHeight - buttonHeight`
if and only if it is no taller; and this position is the one that the next
animation frame commits to the button. -/
theorem moveNoButtonPos_inside (area btn : Size) (r1 r2 : ℚ)
    (h1 : IsDouble r1 ∧ 0 ≤ r1 ∧ r1 < 1) (h2 : IsDouble r2 ∧ 0 ≤ r2 ∧ r2 < 1) :
    0 ≤ (moveNoButtonPos area btn r1 r2).1 ∧
    0 ≤ (moveNoButtonPos area btn r1 r2).2 ∧
    ((((moveNoButtonPos area btn r1 r2).1 : ℤ) : ℚ) ≤ area.width - btn.width ↔
      btn.width ≤ area.width) ∧
    ((((moveNoButtonPos area btn r1 r2).2 : ℤ) : ℚ) ≤ area.height - btn.height ↔
      btn.height ≤ area.height) ∧
    (∀ (s : State) (q : Question), s.question = some q → s.frames = [] →
      (animationFrame (moveNoButton area btn r1 r2 s)).question =
        some { q with noTransform := "scale(1.05) rotate(-6deg)",
                      noLeft := (moveNoButtonPos area btn r1 r2).1,
                      noTop := (moveNoButtonPos area btn r1 r2).2 }) := by
  have hx0 : 0 ≤ (moveNoButtonPos area btn r1 r2).1 :=
    draw_nonneg area.width btn.width r1 h1.2.1
  have hy0 : 0 ≤ (moveNoButtonPos area btn r1 r2).2 :=
    draw_nonneg area.height btn.height r2 h2.2.1
  have hx0q : (0 : ℚ) ≤ (((moveNoButtonPos area btn r1 r2).1 : ℤ) : ℚ) := by exact_mod_cast hx0
  have hy0q : (0 : ℚ) ≤ (((moveNoButtonPos area btn r1 r2).2 : ℤ) : ℚ) := by exact_mod_cast hy0
  refine ⟨hx0, hy0, ⟨fun h => by linarith, fun h => ?_⟩, ⟨fun h => by linarith, fun h => ?_⟩,
    fun s q hq hf => moveNoButton_commit area btn r1 r2 s q hq hf⟩
  · exact draw_le area.width btn.width r1 h1.1 h1.2.1 h1.2.2 h
  · exact draw_le area.height btn.height r2 h2.1 h2.2.1 h2.2.2 h

theorem roundDouble_seven_tenths :
    roundDouble (7 / 10) = 3152519739159347 / 4503599627370496 := by
  have hb := roundPos_binade (7 / 10) (-1) (by norm_num) (by norm_num) (by norm_num)
    (by norm_num)
  have hn : roundHalfEven ((7 / 10 : ℚ) / 2 ^ (-1 - 52 : ℤ)) = 6305039478318694 :=
    roundHalfEven_near 6305039478318694 _ (by norm_num) (by norm_num)
  rw [roundDouble_pos_eq _ (by norm_num), hb, hn]
  norm_num

theorem roundDouble_seven :
    roundDouble (3152519739159347 / 4503599627370496 * 10) = 7 := by
  have hb := roundPos_binade (3152519739159347 / 4503599627370496 * 10) 2 (by norm_num)
    (by norm_num) (by norm_num) (by norm_num)
  have ht : (3152519739159347 / 4503599627370496 * 10 : ℚ) / 2 ^ (2 - 52 : ℤ) =
      15762598695796735 / 2 := by
    norm_num
  have hf : ⌊(15762598695796735 / 2 : ℚ)⌋ = 7881299347898367 := by
    rw [Int.floor_eq_iff]
    norm_num
  have hn : roundHalfEven (15762598695796735 / 2 : ℚ) = 7881299347898368 := by
    unfold roundHalfEven
    rw [hf]
    norm_num
  rw [roundDouble_pos_eq _ (by norm_num), hb, ht, hn]
  norm_num

theorem draw_seven :
    ⌊roundDouble (roundDouble (7 / 10) * roundDouble
      (max 0 (roundDouble (roundDouble ((95 : ℚ) - 80) - 6)) + 1))⌋ = 7 := by
  have e1 : roundDouble ((95 : ℚ) - 80) = 15 := by
    have := roundDouble_intCast 15 (by norm_num)
    norm_num at this ⊢
    exact this
  have e2 : roundDouble ((15 : ℚ) - 6) = 9 := by
    have := roundDouble_intCast 9 (by norm_num)
    norm_num at this ⊢
    exact this
  have e3 : max (0 : ℚ) 9 = 9 := by norm_num
  have e4 : roundDouble ((9 : ℚ) + 1) = 10 := by
    have := roundDouble_intCast 10 (by norm_num)
    norm_num at this ⊢
    exact this
  rw [e1, e2, e3, e4, roundDouble_seven_tenths, roundDouble_seven]
  simp

theorem isDouble_seven_tenths : IsDouble (roundDouble (7 / 10)) := by
  rw [roundDouble_seven_tenths]
  exact ⟨3152519739159347, -52, by norm_num, by norm_num, by norm_num, by norm_num⟩

theorem moveNoButtonPos_inside_witness :
    (moveNoButtonPos ⟨95, 45⟩ ⟨80, 30⟩ (roundDouble (7 / 10)) 0).1 = 7 ∧
      0 ≤ (moveNoButtonPos ⟨95, 45⟩ ⟨80, 30⟩ (roundDouble (7 / 10)) 0).1 ∧
      (((moveNoButtonPos ⟨95, 45⟩ ⟨80, 30⟩ (roundDouble (7 / 10)) 0).1 : ℤ) : ℚ) ≤ 95 - 80 ∧
      (((moveNoButtonPos ⟨95, 45⟩ ⟨80, 30⟩ (roundDouble (7 / 10)) 0).2 : ℤ) : ℚ) ≤ 45 - 30 :=
  have h := moveNoButtonPos_inside ⟨95, 45⟩ ⟨80, 30⟩ (roundDouble (7 / 10)) 0
    ⟨isDouble_seven_tenths, by rw [roundDouble_seven_tenths]; norm_num,
      by rw [roundDouble_seven_tenths]; norm_num⟩
    ⟨isDouble_intCast 0 (by norm_num), by norm_num, by norm_num⟩
  ⟨(moveNoButtonPos_fst _ _ _ _).trans draw_seven, h.1,
    h.2.2.1.2 (by norm_num), h.2.2.2.1.2 (by norm_num)⟩

/-! ## Theme toggle -/

theorem classContains_toggle (cls : List String) (t : String) :
    classContains (classToggle cls t) t = !classContains cls t := by
  unfold classToggle classContains classRemove
  by_cases h : t ∈ cls
  · simp [h]
  · simp [h]

theorem darkMode_toggle (s : State) : darkMode (themeToggleClick s) = !darkMode s := by
  simp [darkMode, themeToggleClick, classContains_toggle]

/-- C10. For every starting display mode, two clicks on the theme toggle give
back the dark-mode flag of the document root that was there before them (one
click flips it). -/
theorem theme_toggle_twice (s : State) :
    darkMode (themeToggleClick (themeToggleClick s)) = darkMode s ∧
      darkMode (run s [Event.themeClick, Event.themeClick]) = darkMode s ∧
      darkMode (themeToggleClick s) ≠ darkMode s := by
  have h2 : darkMode (themeToggleClick (themeToggleClick s)) = darkMode s := by
    rw [darkMode_toggle, darkMode_toggle, Bool.not_not]
  refine ⟨h2, h2, ?_⟩
  rw [darkMode_toggle]
  cases darkMode s <;> decide

/-! ## Escaping -/

theorem escapeHtml_cons (c : CodeUnit) (s : JSString) :
    escapeHtml (c :: s) = (if needsEscape c then escapeReplacer c else [c]) ++ escapeHtml s := by
  simp [escapeHtml]

theorem needsEscape_cases (c : CodeUnit) :
    (c = 38 ∨ c = 60 ∨ c = 62 ∨ c = 34 ∨ c = 39) ∨
      (needsEscape c = false ∧ c ≠ 38 ∧ c ≠ 60 ∧ c ≠ 62 ∧ c ≠ 34 ∧ c ≠ 39) := by
  unfold needsEscape
  by_cases h1 : c = 38
  · exact Or.inl (Or.inl h1)
  by_cases h2 : c = 60
  · exact Or.inl (Or.inr (Or.inl h2))
  by_cases h3 : c = 62
  · exact Or.inl (Or.inr (Or.inr (Or.inl h3)))
  by_cases h4 : c = 34
  · exact Or.inl (Or.inr (Or.inr (Or.inr (Or.inl h4))))
  by_cases h5 : c = 39
  · exact Or.inl (Or.inr (Or.inr (Or.inr (Or.inr h5))))
  · right
    simp [h1, h2, h3, h4, h5]

theorem decodeFrom_plain (c : CodeUnit) (rest : JSString) (h : c ≠ 38) :
    decodeFrom 0 (c :: rest) = c :: decodeFrom 0 rest := by
  have h38 : (38 == c) = false := by simpa using fun h2 => h h2.symm
  simp [decodeFrom, escapeTable, js, encodeChar, List.find?, List.isPrefixOf, h38]

theorem decodeEntities_escapeHtml (s : JSString) : decodeEntities (escapeHtml s) = s := by
  unfold decodeEntities
  induction s with
  | nil => simp [escapeHtml, decodeFrom]
  | cons c s ih =>
    rw [escapeHtml_cons]
    rcases needsEscape_cases c with (h | h | h | h | h) | ⟨hn, h38, _⟩
    · subst h
      simpa [needsEscape, escapeReplacer, escapeTable, js, encodeChar, decodeFrom, List.find?,
        List.isPrefixOf, List.lookup] using ih
    · subst h
      simpa [needsEscape, escapeReplacer, escapeTable, js, encodeChar, decodeFrom, List.find?,
        List.isPrefixOf, List.lookup] using ih
    · subst h
      simpa [needsEscape, escapeReplacer, escapeTable, js, encodeChar, decodeFrom, List.find?,
        List.isPrefixOf, List.lookup] using ih
    · subst h
      simpa [needsEscape, escapeReplacer, escapeTable, js, encodeChar, decodeFrom, List.find?,
        List.isPrefixOf, List.lookup] using ih
    · subst h
      simpa [needsEscape, escapeReplacer, escapeTable, js, encodeChar, decodeFrom, List.find?,
        List.isPrefixOf, List.lookup] using ih
    · simp only [hn, Bool.false_eq_true, if_false, List.singleton_append]
      rw [decodeFrom_plain c _ h38, ih]

theorem escapeHtml_no_markup (s : JSString) :
    ∀ c ∈ escapeHtml s, c ≠ 60 ∧ c ≠ 62 ∧ c ≠ 34 ∧ c ≠ 39 := by
  induction s with
  | nil => simp [escapeHtml]
  | cons a s ih =>
    rw [escapeHtml_cons]
    intro c hc
    rcases List.mem_append.1 hc with hc | hc
    · rcases needsEscape_cases a with (h | h | h | h | h) | ⟨hn, _, h60, h62, h34, h39⟩
      · subst h
        simp [needsEscape, escapeReplacer, escapeTable, js, encodeChar, List.lookup] at hc
        rcases hc with h | h | h | h | h <;> subst h <;> decide
      · subst h
        simp [needsEscape, escapeReplacer, escapeTable, js, encodeChar, List.lookup] at hc
        rcases hc with h | h | h | h <;> subst h <;> decide
      · subst h
        simp [needsEscape, escapeReplacer, escapeTable, js, encodeChar, List.lookup] at hc
        rcases hc with h | h | h | h <;> subst h <;> decide
      · subst h
        simp [needsEscape, escapeReplacer, escapeTable, js, encodeChar, List.lookup] at hc
        rcases hc with h | h | h | h | h | h <;> subst h <;> decide
      · subst h
        simp [needsEscape, escapeReplacer, escapeTable, js, encodeChar, List.lookup] at hc
        rcases hc with h | h | h | h | h <;> subst h <;> decide
      · simp only [hn, Bool.false_eq_true, if_false, List.mem_singleton] at hc
        subst hc
        exact ⟨h60, h62, h34, h39⟩
    · exact ih c hc

theorem ampersand_append (block rest : JSString)
    (hb : ∀ i, block[i]? = some 38 → ∃ e ∈ entities, e <+: block.drop i)
    (hr : ∀ i, rest[i]? = some 38 → ∃ e ∈ entities, e <+: rest.drop i) :
    ∀ i, (block ++ rest)[i]? = some 38 → ∃ e ∈ entities, e <+: (block ++ rest).drop i := by
  intro i hi
  by_cases h : i < block.length
  · rw [List.getElem?_append_left h] at hi
    obtain ⟨e, he, hp⟩ := hb i hi
    refine ⟨e, he, ?_⟩
    rw [List.drop_append_of_le_length (le_of_lt h)]
    exact hp.trans (List.prefix_append _ _)
  · have h2 : block.length ≤ i := Nat.le_of_not_lt h
    rw [List.getElem?_append_right h2] at hi
    obtain ⟨e, he, hp⟩ := hr _ hi
    refine ⟨e, he, ?_⟩
    have hd : (block ++ rest).drop i = rest.drop (i - block.length) := by
      rw [List.drop_append_eq_append_drop, List.drop_of_length_le h2]
      simp
    rw [hd]
    exact hp

theorem entity_block (e tl : JSString) (he : 38 :: tl ∈ entities) (htl : 38 ∉ tl)
    (heq : e = 38 :: tl) :
    ∀ i, e[i]? = some 38 → ∃ x ∈ entities, x <+: e.drop i := by
  subst heq
  intro i hi
  cases i with
  | zero => exact ⟨38 :: tl, he, by simp⟩
  | succ k =>
    simp only [List.getElem?_cons_succ] at hi
    exact absurd (List.getElem?_mem hi) htl

theorem escapeHtml_ampersands (s : JSString) :
    ∀ i, (escapeHtml s)[i]? = some 38 → ∃ e ∈ entities, e <+: (escapeHtml s).drop i := by
  induction s with
  | nil => simp [escapeHtml]
  | cons a s ih =>
    rw [escapeHtml_cons]
    refine ampersand_append _ _ ?_ ih
    rcases needsEscape_cases a with (h | h | h | h | h) | ⟨hn, h38, _⟩
    · subst h
      exact entity_block _ [97, 109, 112, 59] (by decide) (by decide) (by decide)
    · subst h
      exact entity_block _ [108, 116, 59] (by decide) (by decide) (by decide)
    · subst h
      exact entity_block _ [103, 116, 59] (by decide) (by decide) (by decide)
    · subst h
      exact entity_block _ [113, 117, 111, 116, 59] (by decide) (by decide) (by decide)
    · subst h
      exact entity_block _ [35, 51, 57, 59] (by decide) (by decide) (by decide)
    · simp only [hn, Bool.false_eq_true, if_false]
      intro i hi
      cases i with
      | zero => simp at hi; exact absurd hi h38
      | succ k => simp at hi

/-- C7. For every string `s`, `escapeHtml s` holds none of the characters
`<`, `>`, `"` and `'`; every `&` in it begins one of the five entities
`&amp;` `&lt;` `&gt;` `&quot;` `&#39;`; decoding these entities gives back
exactly `s`; and the markup that `showQuestionFor` places in the heading for
the name is `escapeHtml name`, which therefore reads as the literal text
`name`. -/
theorem escapeHtml_literal (s : JSString) (area : Size) (yesOffsetHeight : ℚ) (st : State) :
    (∀ c ∈ escapeHtml s, c ≠ 60 ∧ c ≠ 62 ∧ c ≠ 34 ∧ c ≠ 39) ∧
    (∀ i, (escapeHtml s)[i]? = some 38 → ∃ e ∈ entities, e <+: (escapeHtml s).drop i) ∧
    decodeEntities (escapeHtml s) = s ∧
    ((showQuestionFor area yesOffsetHeight s st).question.map Question.herName =
        some (escapeHtml s)) ∧
    ((showQuestionFor area yesOffsetHeight s st).question.map renderedName = some s) := by
  refine ⟨escapeHtml_no_markup s, escapeHtml_ampersands s, decodeEntities_escapeHtml s, ?_, ?_⟩
  · simp [showQuestionFor, placeInitialButtons]
  · simp [showQuestionFor, placeInitialButtons, renderedName, decodeEntities_escapeHtml]

/-! ## Hearts -/

theorem spawnLoop_eq (h : Host) (base n : Nat) (s : State) :
    (List.range n).foldl (spawnHeart h base) s =
      { s with hearts := s.hearts ++ (List.range n).map (fun i => newHeart h base (s.heartSeq + i) i),
               heartSeq := s.heartSeq + n,
               timers := s.timers ++ (List.range n).map (fun i =>
                 { due := s.now + (1600 + i * 40),
                   action := TimerAction.removeHeart (s.heartSeq + i) }) } := by
  induction n with
  | zero => simp
  | succ n ih =>
    rw [List.range_succ, List.foldl_append, ih]
    simp [spawnHeart, List.map_append, Nat.add_assoc]

theorem spawnHearts_eq (h : Host) (base n : Nat) (s : State) :
    spawnHearts h base n s =
      { s with spawnLog := s.spawnLog ++ [n],
               hearts := s.hearts ++ (List.range n).map (fun i => newHeart h base (s.heartSeq + i) i),
               heartSeq := s.heartSeq + n,
               timers := s.timers ++ (List.range n).map (fun i =>
                 { due := s.now + (1600 + i * 40),
                   action := TimerAction.removeHeart (s.heartSeq + i) }) } := by
  unfold spawnHearts
  rw [spawnLoop_eq]

theorem fireTimers_hearts (l : List Timer) :
    ∀ (s : State) (x : Heart), x ∈ (l.foldl fireTimer s).hearts →
      x ∈ s.hearts ∧ ∀ t ∈ l, t.action ≠ TimerAction.removeHeart x.id := by
  induction l with
  | nil => intro s x hx; exact ⟨hx, by simp⟩
  | cons t l ih =>
    intro s x hx
    rw [List.foldl_cons] at hx
    obtain ⟨h1, h2⟩ := ih (fireTimer s t) x hx
    cases hta : t.action with
    | removeHeart id =>
      simp only [fireTimer, hta, List.mem_filter, bne_iff_ne, ne_eq] at h1
      refine ⟨h1.1, ?_⟩
      intro u hu
      rcases List.mem_cons.1 hu with hu | hu
      · subst hu
        rw [hta]
        intro heq
        injection heq with heq
        exact h1.2 heq.symm
      · exact h2 u hu
    | resetTransform r =>
      simp only [fireTimer, hta] at h1
      refine ⟨h1, ?_⟩
      intro u hu
      rcases List.mem_cons.1 hu with hu | hu
      · subst hu
        rw [hta]
        intro heq
        cases heq
      · exact h2 u hu

theorem advance_removes (dt : Nat) (s : State) (t : Timer) (id : Nat) (ht : t ∈ s.timers)
    (ha : t.action = TimerAction.removeHeart id) (hd : t.due ≤ s.now + dt) :
    ∀ x ∈ (advance dt s).hearts, x.id ≠ id := by
  intro x hx heq
  unfold advance at hx
  obtain ⟨_, h2⟩ := fireTimers_hearts _ _ x hx
  refine h2 t ?_ (by rw [ha, heq])
  simp [List.mem_filter, ht, hd]

/-! ## Chime and celebration -/

theorem runCalls_state (h : Host) (cs : List SoundCall) :
    ∀ s : State, ∃ t, (runCalls h cs s).state = { s with tones := t } := by
  induction cs with
  | nil => intro s; exact ⟨s.tones, rfl⟩
  | cons c cs ih =>
    intro s
    unfold runCalls
    by_cases hc : h.throwsAt c = true
    · simp only [hc, if_true]
      exact ⟨s.tones, rfl⟩
    · simp only [hc, Bool.false_eq_true, if_false]
      obtain ⟨t, ht⟩ := ih (performCall c s)
      refine ⟨t, ?_⟩
      rw [ht]
      cases c <;> rfl

theorem playChime_spec (h : Host) (s : State) :
    (playChime h s).thrown = none ∧
      ∃ t w, (playChime h s).state = { s with tones := t, warnings := w } := by
  have hb : ∃ t, (chimeBody h s).state = { s with tones := t } := by
    unfold chimeBody
    by_cases hc : h.hasSoundContext = true
    · simp only [hc, if_true]
      exact runCalls_state h _ s
    · simp only [hc, Bool.false_eq_true, if_false]
      exact ⟨s.tones, rfl⟩
  obtain ⟨t, ht⟩ := hb
  cases hr : (chimeBody h s).thrown with
  | none =>
    have hp : playChime h s = { thrown := none, state := (chimeBody h s).state } := by
      simp only [playChime, hr]
    rw [hp, ht]
    exact ⟨rfl, t, s.warnings, rfl⟩
  | some e =>
    have hp : playChime h s = { thrown := none, state :=
        { (chimeBody h s).state with warnings := (chimeBody h s).state.warnings + 1 } } := by
      simp only [playChime, hr]
    rw [hp, ht]
    exact ⟨rfl, t, s.warnings + 1, rfl⟩

theorem attachAgainListener_append (os : List Overlay) :
    ∃ os1, attachAgainListener (os ++ [{ againListeners := 0 }]) = some os1 ∧
      os1.length = os.length + 1 ∧ (os = [] → os1 = [{ againListeners := 1 }]) := by
  cases os with
  | nil => exact ⟨_, rfl, rfl, fun _ => rfl⟩
  | cons o os => exact ⟨_, rfl, by simp, fun h => by cases h⟩

theorem respondYes_spec (h : Host) (s : State) :
    ∃ t w os1, attachAgainListener (s.overlays ++ [{ againListeners := 0 }]) = some os1 ∧
      respondYes h s =
        { thrown := none,
          state := { spawnHearts h 0 12 s with
                       tones := t, warnings := w,
                       question := s.question.map disableButtons,
                       overlays := os1 } } := by
  obtain ⟨os1, hos, _, _⟩ := attachAgainListener_append s.overlays
  obtain ⟨hthrown, t, w, hstate⟩ :=
    playChime_spec h (spawnHearts h 0 12 { s with overlays := s.overlays ++ [{ againListeners := 0 }] })
  refine ⟨t, w, os1, hos, ?_⟩
  unfold respondYes
  simp only [hthrown, hstate]
  simp only [spawnHearts_eq, hos]

/-- C9. For every host, whatever part of tone synthesis fails (no audio
context constructor, a constructor that throws, any later call that throws),
`playChime` returns without raising and leaves the page as it was, and
`respondYes` returns without raising with the same page as on a host where
tone synthesis works: the celebration panel is appended, 12 particles are
spawned, both buttons of the question are disabled and `againBtn` has its
listener. -/
theorem respondYes_without_sound (h : Host) (s : State) :
    (playChime h s).thrown = none ∧
      pageOf (playChime h s).state = pageOf s ∧
      (respondYes h s).thrown = none ∧
      pageOf (respondYes h s).state = pageOf (respondYes h.withSound s).state ∧
      (respondYes h s).state.overlays.length = s.overlays.length + 1 ∧
      attachAgainListener (s.overlays ++ [{ againListeners := 0 }]) =
        some (respondYes h s).state.overlays ∧
      (respondYes h s).state.hearts.length = s.hearts.length + 12 ∧
      (respondYes h s).state.spawnLog = s.spawnLog ++ [12] ∧
      (respondYes h s).state.question = s.question.map disableButtons ∧
      (∀ q, (respondYes h s).state.question = some q →
        q.yesDisabled = true ∧ q.noDisabled = true) := by
  obtain ⟨hc1, t0, w0, hc2⟩ := playChime_spec h s
  obtain ⟨t, w, os1, hos, hr⟩ := respondYes_spec h s
  obtain ⟨t2, w2, os2, hos2, hr2⟩ := respondYes_spec h.withSound s
  obtain ⟨os3, hos3, hlen, _⟩ := attachAgainListener_append s.overlays
  have e1 : os2 = os1 := Option.some.inj (hos2.symm.trans hos)
  have e3 : os3 = os1 := Option.some.inj (hos3.symm.trans hos)
  have hsp : spawnHearts h.withSound 0 12 s = spawnHearts h 0 12 s := rfl
  subst e1 e3
  refine ⟨hc1, by rw [hc2]; rfl, by rw [hr], by rw [hr, hr2, hsp]; rfl, by rw [hr]; exact hlen,
    by rw [hr]; exact hos, by rw [hr, spawnHearts_eq]; simp, by rw [hr, spawnHearts_eq],
    by rw [hr], ?_⟩
  rw [hr]
  intro q hq
  cases hsq : s.question with
  | none => simp [hsq] at hq
  | some q0 =>
    simp only [hsq, Option.map_some', Option.some.injEq] at hq
    subst hq
    exact ⟨rfl, rfl⟩

theorem respondYes_without_sound_witness :
    (chimeBody muteHost examplePrompt).thrown = some JSError.typeError ∧
      (respondYes muteHost examplePrompt).thrown = none ∧
      ((respondYes muteHost examplePrompt).state.question.map Question.yesDisabled = some true ∧
        (respondYes muteHost examplePrompt).state.question.map Question.noDisabled = some true) :=
  ⟨by decide, (respondYes_without_sound muteHost examplePrompt).2.2.1,
   by
    cases hq : (respondYes muteHost examplePrompt).state.question with
    | none =>
      have h9 := (respondYes_without_sound muteHost examplePrompt).2.2.2.2.2.2.2.2.1
      rw [hq] at h9
      exact absurd h9 (by decide)
    | some q =>
      have h10 := (respondYes_without_sound muteHost examplePrompt).2.2.2.2.2.2.2.2.2 q hq
      simp [h10.1, h10.2]⟩

/-! ## Confirm and again -/

theorem againListener_spec (h : Host) (base : Nat) (s : State) :
    ∃ t w, (againListener h base s).state =
      { spawnHearts h base 10 s with tones := t, warnings := w } := by
  obtain ⟨_, t, w, hst⟩ := playChime_spec h (spawnHearts h base 10 s)
  exact ⟨t, w, hst⟩

theorem step_yesClick (h : Host) (s : State) (q : Question) (hq : s.question = some q)
    (hd : q.yesDisabled = false) : step s (Event.yesClick h) = (respondYes h s).state := by
  simp [step, hq, hd]

theorem step_againClick_one (h : Host) (s : State) (hov : s.overlays = [{ againListeners := 1 }]) :
    step s (Event.againClick 0 h) = (againListener h 0 s).state := by
  simp [step, hov, List.range_succ]

theorem run_again (q : Question) (hs : List Host) :
    ∀ s : State, s.overlays = [{ againListeners := 1 }] → s.question = some q →
      (run s (hs.map (Event.againClick 0))).overlays = [{ againListeners := 1 }] ∧
      (run s (hs.map (Event.againClick 0))).question = some q ∧
      (run s (hs.map (Event.againClick 0))).spawnLog =
        s.spawnLog ++ List.replicate hs.length 10 ∧
      (run s (hs.map (Event.againClick 0))).heartSeq = s.heartSeq + 10 * hs.length ∧
      (run s (hs.map (Event.againClick 0))).hearts.length =
        s.hearts.length + 10 * hs.length := by
  induction hs with
  | nil => intro s hov hq; exact ⟨hov, hq, by simp [run], by simp [run], by simp [run]⟩
  | cons h hs ih =>
    intro s hov hq
    obtain ⟨t, w, hst⟩ := againListener_spec h 0 s
    have hstep : step s (Event.againClick 0 h) =
        { spawnHearts h 0 10 s with tones := t, warnings := w } := by
      rw [step_againClick_one h s hov, hst]
    have hrun : run s ((h :: hs).map (Event.againClick 0)) =
        run (step s (Event.againClick 0 h)) (hs.map (Event.againClick 0)) := rfl
    rw [hrun, hstep]
    obtain ⟨i1, i2, i3, i4, i5⟩ := ih { spawnHearts h 0 10 s with tones := t, warnings := w }
      (by rw [spawnHearts_eq]; exact hov) (by rw [spawnHearts_eq]; exact hq)
    refine ⟨i1, i2, ?_, ?_, ?_⟩
    · rw [i3, spawnHearts_eq]
      simp [List.replicate_succ]
    · rw [i4, spawnHearts_eq]
      simp only [List.length_cons]
      omega
    · rw [i5, spawnHearts_eq]
      simp only [List.length_cons, List.length_append, List.length_map, List.length_range]
      omega

/-- C5. Starting from a page that shows the prompt (question rendered, yes
button enabled, no celebration panel), one click on the yes button followed by
`N` clicks on the again button leaves exactly one celebration panel in the play
card and both buttons of the question disabled, and has called `spawnHearts`
exactly `1 + N` times, with 12 and then `N` times 10, creating `12 + 10*N`
particles in all.  As this holds for every `N`, no again click re-enables a
button. -/
theorem confirm_then_again (s : State) (q : Question) (h : Host) (hs : List Host)
    (hq : s.question = some q) (hyes : q.yesDisabled = false) (hov : s.overlays = []) :
    (run s (Event.yesClick h :: hs.map (Event.againClick 0))).overlays.length = 1 ∧
      (run s (Event.yesClick h :: hs.map (Event.againClick 0))).question =
        some { q with yesDisabled := true, noDisabled := true } ∧
      (run s (Event.yesClick h :: hs.map (Event.againClick 0))).spawnLog =
        s.spawnLog ++ 12 :: List.replicate hs.length 10 ∧
      (run s (Event.yesClick h :: hs.map (Event.againClick 0))).heartSeq =
        s.heartSeq + (12 + 10 * hs.length) ∧
      (run s (Event.yesClick h :: hs.map (Event.againClick 0))).hearts.length =
        s.hearts.length + (12 + 10 * hs.length) ∧
      displayState (run s (Event.yesClick h :: hs.map (Event.againClick 0))) =
        Display.celebrating := by
  obtain ⟨t, w, os1, hos, hr⟩ := respondYes_spec h s
  rw [hov] at hos
  have hos1 : os1 = [{ againListeners := 1 }] := (Option.some.inj hos).symm
  subst hos1
  have hrun : run s (Event.yesClick h :: hs.map (Event.againClick 0)) =
      run (respondYes h s).state (hs.map (Event.againClick 0)) := by
    rw [← step_yesClick h s q hq hyes]
    rfl
  rw [hrun, hr]
  obtain ⟨i1, i2, i3, i4, i5⟩ := run_again (disableButtons q) hs
    { spawnHearts h 0 12 s with
        tones := t, warnings := w, question := s.question.map disableButtons,
        overlays := [{ againListeners := 1 }] } rfl (by simp [hq])
  refine ⟨by rw [i1]; rfl, by rw [i2]; rfl, ?_, ?_, ?_, ?_⟩
  · rw [i3, spawnHearts_eq]
    simp
  · rw [i4, spawnHearts_eq]
    simp only
    omega
  · rw [i5, spawnHearts_eq]
    simp only [List.length_append, List.length_map, List.length_range]
    omega
  · simp [displayState, i1]

theorem confirm_then_again_witness :
    (run examplePrompt
        (Event.yesClick exampleHost ::
          [muteHost, exampleHost, muteHost].map (Event.againClick 0))).overlays.length = 1 ∧
      (run examplePrompt
        (Event.yesClick exampleHost ::
          [muteHost, exampleHost, muteHost].map (Event.againClick 0))).spawnLog =
        [12, 10, 10, 10] :=
  have hq : examplePrompt.question = some (placeInitialButtons ⟨300, 100⟩ 30
      { render := 0, herName := escapeHtml (trim (js "Anna Bell")), yesDisabled := false,
        noDisabled := false, yesLeft := 0, yesTop := 0, noLeft := 0, noTop := 0,
        noTransform := "" }) := by
    rfl
  have h := confirm_then_again examplePrompt _ exampleHost [muteHost, exampleHost, muteHost]
    hq rfl (by decide)
  ⟨h.1, h.2.2.1⟩

/-! ## Display state -/

theorem displayState_congr (a b : State) (ho : a.overlays = b.overlays)
    (hq : a.question.isSome = b.question.isSome) : displayState a = displayState b := by
  simp [displayState, ho, hq]

theorem displayState_celebrating (a : State) (ho : a.overlays ≠ []) :
    displayState a = Display.celebrating := by
  cases hov : a.overlays with
  | nil => exact absurd hov ho
  | cons o os => simp [displayState, hov]

theorem foldl_card {α : Type} (f : State → α → State)
    (hf : ∀ s a, (f s a).overlays = s.overlays ∧ (f s a).question.isSome = s.question.isSome)
    (l : List α) :
    ∀ s, (l.foldl f s).overlays = s.overlays ∧ (l.foldl f s).question.isSome = s.question.isSome := by
  induction l with
  | nil => intro s; exact ⟨rfl, rfl⟩
  | cons a l ih =>
    intro s
    rw [List.foldl_cons]
    exact ⟨(ih (f s a)).1.trans (hf s a).1, (ih (f s a)).2.trans (hf s a).2⟩

theorem runFrame_card (s : State) (f : Frame) :
    (runFrame s f).overlays = s.overlays ∧ (runFrame s f).question.isSome = s.question.isSome := by
  refine ⟨rfl, ?_⟩
  cases hq : s.question <;> simp [runFrame, hq]

theorem fireTimer_card (s : State) (t : Timer) :
    (fireTimer s t).overlays = s.overlays ∧
      (fireTimer s t).question.isSome = s.question.isSome := by
  cases hta : t.action with
  | removeHeart id => simp [fireTimer, hta]
  | resetTransform r => cases hq : s.question <;> simp [fireTimer, hta, hq]

theorem againListener_card (h : Host) (s : State) (k : Nat) :
    (againListener h (40 * k) s).state.overlays = s.overlays ∧
      (againListener h (40 * k) s).state.question.isSome = s.question.isSome := by
  obtain ⟨t, w, hst⟩ := againListener_spec h (40 * k) s
  rw [hst, spawnHearts_eq]
  exact ⟨rfl, rfl⟩

theorem moveNoButton_card (area btn : Size) (r1 r2 : ℚ) (s : State) :
    (moveNoButton area btn r1 r2 s).overlays = s.overlays ∧
      (moveNoButton area btn r1 r2 s).question.isSome = s.question.isSome := by
  cases hq : s.question <;> simp [moveNoButton, hq]

theorem respondYes_overlays (h : Host) (s : State) : (respondYes h s).state.overlays ≠ [] := by
  obtain ⟨t, w, os1, hos, hr⟩ := respondYes_spec h s
  obtain ⟨os3, hos3, hlen, _⟩ := attachAgainListener_append s.overlays
  have e3 : os3 = os1 := Option.some.inj (hos3.symm.trans hos)
  subst e3
  rw [hr]
  intro hnil
  have hnil2 : os3 = [] := hnil
  rw [hnil2] at hlen
  simp at hlen

theorem step_display (s : State) (e : Event) :
    (acceptedSubmit s e = true ∧ displayState (step s e) = Display.prompt) ∨
      (acceptedSubmit s e = false ∧
        (displayState (step s e) = displayState s ∨
          displayState (step s e) = Display.celebrating)) := by
  cases e with
  | themeClick => exact Or.inr ⟨rfl, Or.inl rfl⟩
  | typeName v => exact Or.inr ⟨rfl, Or.inl rfl⟩
  | submit area y =>
    by_cases hv : validates s.nameValue = true
    · refine Or.inl ⟨hv, ?_⟩
      unfold validates at hv
      simp [step, submitHandler, hv, showQuestionFor, displayState]
    · have hv2 : validates s.nameValue = false := by simpa using hv
      refine Or.inr ⟨hv2, Or.inl ?_⟩
      unfold validates at hv2
      simp [step, submitHandler, hv2, displayState]
  | noSignal sig area btn r1 r2 =>
    refine Or.inr ⟨rfl, Or.inl ?_⟩
    simp only [step]
    split
    · rfl
    · split
      · rfl
      · split
        · have hc := moveNoButton_card area btn r1 r2 { s with focused := some Control.noBtn }
          exact displayState_congr _ _ hc.1 hc.2
        · have hc := moveNoButton_card area btn r1 r2 s
          exact displayState_congr _ _ hc.1 hc.2
  | yesClick h =>
    refine Or.inr ⟨rfl, ?_⟩
    simp only [step]
    split
    · left; rfl
    · split
      · left; rfl
      · right; exact displayState_celebrating _ (respondYes_overlays h s)
  | againClick i h =>
    refine Or.inr ⟨rfl, Or.inl ?_⟩
    simp only [step]
    split
    · rfl
    · rename_i o _
      have hc := foldl_card (fun st k => (againListener h (40 * k) st).state)
        (fun st k => againListener_card h st k) (List.range o.againListeners) s
      exact displayState_congr _ _ hc.1 hc.2
  | animationFrame =>
    refine Or.inr ⟨rfl, Or.inl ?_⟩
    have hc := foldl_card runFrame runFrame_card s.frames { s with frames := [] }
    exact displayState_congr _ _ hc.1 hc.2
  | advance dt =>
    refine Or.inr ⟨rfl, Or.inl ?_⟩
    have hc := foldl_card fireTimer fireTimer_card
      (s.timers.filter (fun t => decide (t.due ≤ s.now + dt)))
      { s with now := s.now + dt,
               timers := s.timers.filter (fun t => !decide (t.due ≤ s.now + dt)) }
    exact displayState_congr _ _ hc.1 hc.2

theorem step_not_intro (s : State) (e : Event) (h : displayState s ≠ Display.intro) :
    displayState (step s e) ≠ Display.intro := by
  rcases step_display s e with ⟨_, hp⟩ | ⟨_, hp | hp⟩
  · rw [hp]; decide
  · rw [hp]; exact h
  · rw [hp]; decide

theorem run_not_intro (es : List Event) :
    ∀ s, displayState s ≠ Display.intro → displayState (run s es) ≠ Display.intro := by
  induction es with
  | nil => intro s h; exact h
  | cons e es ih => intro s h; exact ih (step s e) (step_not_intro s e h)

theorem rank_le_celebrating (d : Display) : d.rank ≤ Display.celebrating.rank := by
  cases d <;> decide

theorem step_rank (s : State) (e : Event)
    (h : (acceptedSubmit s e && decide (displayState s = Display.celebrating)) = false) :
    (displayState s).rank ≤ (displayState (step s e)).rank := by
  rcases step_display s e with ⟨ha, hp⟩ | ⟨_, hp | hp⟩
  · rw [hp]
    have hne : displayState s ≠ Display.celebrating := by
      intro hc
      simp [ha, hc] at h
    cases hd : displayState s with
    | intro => decide
    | prompt => decide
    | celebrating => exact absurd hd hne
  · rw [hp]
  · rw [hp]; exact rank_le_celebrating _

theorem run_rank (es : List Event) :
    ∀ s, noResubmit s es = true → (displayState s).rank ≤ (displayState (run s es)).rank := by
  induction es with
  | nil => intro s _; exact le_refl _
  | cons e es ih =>
    intro s h
    simp only [noResubmit, Bool.and_eq_true, Bool.not_eq_true'] at h
    exact le_trans (step_rank s e h.1) (ih (step s e) h.2)

theorem noResubmit_append (pre post : List Event) :
    ∀ s, noResubmit s (pre ++ post) = true → noResubmit (run s pre) post = true := by
  induction pre with
  | nil => intro s h; exact h
  | cons e pre ih =>
    intro s h
    simp only [List.cons_append, noResubmit, Bool.and_eq_true] at h
    exact ih (step s e) h.2

theorem run_append (pre post : List Event) (s : State) :
    run s (pre ++ post) = run (run s pre) post := by
  simp [run, List.foldl_append]

/-- C6, as stated, fails: after the name is typed and submitted and the yes
button clicked the display state is Celebrating, and a further submission of
the form, which is accepted, puts it back to Prompt. -/
theorem display_state_counterexample :
    displayState (run initialPage
        [Event.typeName (js "Anna Bell"), Event.submit ⟨300, 100⟩ 30,
         Event.yesClick exampleHost]) = Display.celebrating ∧
      displayState (run initialPage
        [Event.typeName (js "Anna Bell"), Event.submit ⟨300, 100⟩ 30,
         Event.yesClick exampleHost, Event.submit ⟨300, 100⟩ 30]) = Display.prompt := by
  decide

/-- C6, amended. Along every sequence of events, once the display state has
left Intro it never returns to Intro; along every sequence in which no form
submission is accepted while the state is Celebrating, the display state never
moves backwards in the order Intro < Prompt < Celebrating; and an accepted form
submission always ends in Prompt, whatever the state before it. -/
theorem display_state_monotone (s : State) (es : List Event) :
    (displayState s ≠ Display.intro → displayState (run s es) ≠ Display.intro) ∧
      (noResubmit s es = true → ∀ pre post, es = pre ++ post →
        (displayState (run s pre)).rank ≤ (displayState (run s es)).rank) ∧
      (∀ e, acceptedSubmit s e = true → displayState (step s e) = Display.prompt) := by
  refine ⟨run_not_intro es s, ?_, ?_⟩
  · intro h pre post hes
    subst hes
    rw [run_append]
    exact run_rank post (run s pre) (noResubmit_append pre post s h)
  · intro e he
    rcases step_display s e with ⟨_, hp⟩ | ⟨hf, _⟩
    · exact hp
    · rw [he] at hf; cases hf

theorem display_state_monotone_witness :
    displayState (run examplePrompt
        [Event.noSignal Signal.mouseenter ⟨300, 100⟩ ⟨80, 30⟩ (1 / 2) (3 / 4),
         Event.yesClick muteHost, Event.againClick 0 exampleHost]) ≠ Display.intro ∧
      (displayState (run initialPage
          [Event.typeName (js "Anna Bell"), Event.submit ⟨300, 100⟩ 30])).rank ≤
        (displayState (run initialPage
          [Event.typeName (js "Anna Bell"), Event.submit ⟨300, 100⟩ 30,
           Event.submit ⟨320, 100⟩ 30, Event.yesClick muteHost, Event.advance 5000,
           Event.themeClick])).rank ∧
      displayState (step (run examplePrompt [Event.yesClick exampleHost])
        (Event.submit ⟨300, 100⟩ 30)) = Display.prompt :=
  ⟨(display_state_monotone examplePrompt _).1 (by decide),
   (display_state_monotone initialPage _).2.1 (by decide)
     [Event.typeName (js "Anna Bell"), Event.submit ⟨300, 100⟩ 30]
     [Event.submit ⟨320, 100⟩ 30, Event.yesClick muteHost, Event.advance 5000,
      Event.themeClick] rfl,
   (display_state_monotone (run examplePrompt [Event.yesClick exampleHost]) []).2.2
     (Event.submit ⟨300, 100⟩ 30) (by decide)⟩

/-! ## Lifetime of a heart -/

theorem Grows.refl (a : State) : Grows a a :=
  ⟨rfl, le_refl _, fun _ h => h, fun _ h => Or.inl h⟩

theorem Grows.trans {a b c : State} (hab : Grows a b) (hbc : Grows b c) : Grows a c := by
  obtain ⟨n1, s1, t1, h1⟩ := hab
  obtain ⟨n2, s2, t2, h2⟩ := hbc
  refine ⟨n2.trans n1, le_trans s1 s2, fun t ht => t2 t (t1 t ht), ?_⟩
  intro x hx
  rcases h2 x hx with hx | hx
  · exact h1 x hx
  · exact Or.inr (le_trans s1 hx)

theorem foldl_grows {α : Type} (f : State → α → State) (hf : ∀ s a, Grows s (f s a))
    (l : List α) : ∀ s, Grows s (l.foldl f s) := by
  induction l with
  | nil => intro s; exact Grows.refl s
  | cons a l ih => intro s; exact (hf s a).trans (ih (f s a))

theorem spawnHearts_grows (h : Host) (base n : Nat) (s : State) :
    Grows s (spawnHearts h base n s) := by
  rw [spawnHearts_eq]
  refine ⟨rfl, Nat.le_add_right _ _, fun t ht => List.mem_append_left _ ht, ?_⟩
  intro x hx
  rcases List.mem_append.1 hx with hx | hx
  · exact Or.inl hx
  · obtain ⟨i, _, rfl⟩ := List.mem_map.1 hx
    exact Or.inr (Nat.le_add_right _ _)

theorem grows_congr (a b c : State) (hg : Grows a b) (h1 : c.now = b.now)
    (h2 : c.heartSeq = b.heartSeq) (h3 : c.timers = b.timers) (h4 : c.hearts = b.hearts) :
    Grows a c := by
  unfold Grows at hg ⊢
  rw [h1, h2, h3, h4]
  exact hg

theorem againListener_grows (h : Host) (s : State) (k : Nat) :
    Grows s (againListener h (40 * k) s).state := by
  obtain ⟨t, w, hst⟩ := againListener_spec h (40 * k) s
  rw [hst]
  refine grows_congr s (spawnHearts h (40 * k) 10 s) _ (spawnHearts_grows h (40 * k) 10 s)
    ?_ ?_ ?_ ?_ <;> rfl

theorem respondYes_grows (h : Host) (s : State) : Grows s (respondYes h s).state := by
  obtain ⟨t, w, os1, _, hr⟩ := respondYes_spec h s
  rw [hr]
  refine grows_congr s (spawnHearts h 0 12 s) _ (spawnHearts_grows h 0 12 s)
    ?_ ?_ ?_ ?_ <;> rfl

theorem runFrame_grows (s : State) (f : Frame) : Grows s (runFrame s f) :=
  Grows.refl s

theorem moveNoButton_grows (area btn : Size) (r1 r2 : ℚ) (s : State) :
    Grows s (moveNoButton area btn r1 r2 s) := by
  unfold moveNoButton
  split
  · exact Grows.refl s
  · exact ⟨rfl, le_refl _, fun t ht => List.mem_append_left _ ht, fun _ h => Or.inl h⟩

theorem step_grows (s : State) (e : Event) :
    (∃ dt, e = Event.advance dt) ∨ Grows s (step s e) := by
  cases e with
  | themeClick => exact Or.inr (Grows.refl s)
  | typeName v => exact Or.inr (Grows.refl s)
  | submit area y =>
    right
    simp only [step, submitHandler]
    split
    · exact Grows.refl s
    · exact Grows.refl s
  | noSignal sig area btn r1 r2 =>
    right
    simp only [step]
    split
    · exact Grows.refl s
    · split
      · exact Grows.refl s
      · split
        · exact moveNoButton_grows area btn r1 r2 { s with focused := some Control.noBtn }
        · exact moveNoButton_grows area btn r1 r2 s
  | yesClick h =>
    right
    simp only [step]
    split
    · exact Grows.refl s
    · split
      · exact Grows.refl s
      · exact respondYes_grows h s
  | againClick i h =>
    right
    simp only [step]
    split
    · exact Grows.refl s
    · rename_i o _
      exact foldl_grows (fun st k => (againListener h (40 * k) st).state)
        (fun st k => againListener_grows h st k) (List.range o.againListeners) s
  | animationFrame =>
    right
    exact (Grows.refl s).trans (foldl_grows runFrame runFrame_grows s.frames { s with frames := [] })
  | advance dt => exact Or.inl ⟨dt, rfl⟩

theorem fireTimers_frame (l : List Timer) :
    ∀ s : State, (l.foldl fireTimer s).heartSeq = s.heartSeq ∧
      (l.foldl fireTimer s).now = s.now ∧ (l.foldl fireTimer s).timers = s.timers := by
  induction l with
  | nil => intro s; exact ⟨rfl, rfl, rfl⟩
  | cons t l ih =>
    intro s
    rw [List.foldl_cons]
    obtain ⟨h1, h2, h3⟩ := ih (fireTimer s t)
    have hf : (fireTimer s t).heartSeq = s.heartSeq ∧ (fireTimer s t).now = s.now ∧
        (fireTimer s t).timers = s.timers := by
      cases hta : t.action <;> simp [fireTimer, hta]
    exact ⟨h1.trans hf.1, h2.trans hf.2.1, h3.trans hf.2.2⟩

theorem pending_grows (j d : Nat) (a b : State) (hp : RemovalPending j d a) (hg : Grows a b) :
    RemovalPending j d b := by
  obtain ⟨hj, hp⟩ := hp
  obtain ⟨hn, hs, ht, hh⟩ := hg
  refine ⟨lt_of_lt_of_le hj hs, ?_⟩
  rcases hp with hp | ⟨hlt, t, htm, hta, htd⟩
  · left
    intro x hx
    rcases hh x hx with hx | hx
    · exact hp x hx
    · omega
  · right
    exact ⟨by rw [hn]; exact hlt, t, ht t htm, hta, htd⟩

theorem pending_advance (j d dt : Nat) (s : State) (hp : RemovalPending j d s) :
    RemovalPending j d (advance dt s) := by
  obtain ⟨hj, hp⟩ := hp
  have hfr := fireTimers_frame (s.timers.filter (fun t => decide (t.due ≤ s.now + dt)))
    { s with now := s.now + dt,
             timers := s.timers.filter (fun t => !decide (t.due ≤ s.now + dt)) }
  refine ⟨by unfold advance; rw [hfr.1]; exact hj, ?_⟩
  rcases hp with hp | ⟨hlt, t, htm, hta, htd⟩
  · left
    intro x hx
    unfold advance at hx
    exact hp x (fireTimers_hearts _ _ x hx).1
  · by_cases hdue : d ≤ s.now + dt
    · left
      exact advance_removes dt s t j htm hta (by rw [htd]; exact hdue)
    · right
      refine ⟨?_, t, ?_, hta, htd⟩
      · unfold advance
        rw [hfr.2.1]
        exact Nat.lt_of_not_le hdue
      · unfold advance
        rw [hfr.2.2]
        simp only [List.mem_filter, Bool.not_eq_true', decide_eq_false_iff_not]
        exact ⟨htm, by rw [htd]; exact hdue⟩

theorem run_pending (j d : Nat) (es : List Event) :
    ∀ s, RemovalPending j d s → RemovalPending j d (run s es) := by
  induction es with
  | nil => intro s h; exact h
  | cons e es ih =>
    intro s h
    refine ih (step s e) ?_
    rcases step_grows s e with ⟨dt, rfl⟩ | hg
    · exact pending_advance j d dt s h
    · exact pending_grows j d s _ h hg

theorem spawnHearts_pending (h : Host) (base n i : Nat) (s : State) (hi : i < n) :
    RemovalPending (s.heartSeq + i) (s.now + (1600 + i * 40)) (spawnHearts h base n s) := by
  rw [spawnHearts_eq]
  refine ⟨Nat.add_lt_add_left hi _, Or.inr ⟨?_, ?_⟩⟩
  · simp only
    omega
  · refine ⟨⟨s.now + (1600 + i * 40), TimerAction.removeHeart (s.heartSeq + i)⟩, ?_, rfl, rfl⟩
    simp only [List.mem_append, List.mem_map, List.mem_range]
    exact Or.inr ⟨i, hi, rfl⟩

/-- C8. For every count `n`, `spawnHearts(n)` appends exactly `n` particles to
the hearts container and schedules exactly one removal for each of them, the
one of the `i`-th particle at a delay of `1600 + 40*i` ms; once
`1600 + 40*(n-1)` ms have passed none of these particles is in the container;
and this holds whatever other events are dispatched in the meantime: on every
page reached from there at a time at least `1600 + 40*(n-1)` ms later, none of
them is in the container. -/
theorem spawnHearts_removed (h : Host) (base n : Nat) (s : State) :
    (spawnHearts h base n s).hearts =
        s.hearts ++ (List.range n).map (fun i => newHeart h base (s.heartSeq + i) i) ∧
      ((spawnHearts h base n s).hearts.length = s.hearts.length + n) ∧
      (spawnHearts h base n s).timers =
        s.timers ++ (List.range n).map (fun i =>
          { due := s.now + (1600 + 40 * i),
            action := TimerAction.removeHeart (s.heartSeq + i) }) ∧
      (∀ dt, 1600 + 40 * (n - 1) ≤ dt → ∀ i < n,
        ∀ x ∈ (advance dt (spawnHearts h base n s)).hearts, x.id ≠ s.heartSeq + i) ∧
      (∀ es, s.now + (1600 + 40 * (n - 1)) ≤ (run (spawnHearts h base n s) es).now →
        ∀ i < n, ∀ x ∈ (run (spawnHearts h base n s) es).hearts, x.id ≠ s.heartSeq + i) := by
  have key : ∀ es, s.now + (1600 + 40 * (n - 1)) ≤ (run (spawnHearts h base n s) es).now →
      ∀ i < n, ∀ x ∈ (run (spawnHearts h base n s) es).hearts, x.id ≠ s.heartSeq + i := by
    intro es hnow i hi
    obtain ⟨_, hp⟩ := run_pending _ _ es _ (spawnHearts_pending h base n i s hi)
    rcases hp with hp | ⟨hlt, _⟩
    · exact hp
    · omega
  refine ⟨by rw [spawnHearts_eq], by rw [spawnHearts_eq]; simp,
    by rw [spawnHearts_eq]; simp [Nat.mul_comm], ?_, key⟩
  intro dt hdt i hi
  refine key [Event.advance dt] ?_ i hi
  have hfr := fireTimers_frame
    ((spawnHearts h base n s).timers.filter
      (fun t => decide (t.due ≤ (spawnHearts h base n s).now + dt)))
    { spawnHearts h base n s with
        now := (spawnHearts h base n s).now + dt,
        timers := (spawnHearts h base n s).timers.filter
          (fun t => !decide (t.due ≤ (spawnHearts h base n s).now + dt)) }
  have hnow : (run (spawnHearts h base n s) [Event.advance dt]).now =
      (spawnHearts h base n s).now + dt := hfr.2.1
  rw [hnow, spawnHearts_eq]
  simp only
  omega

theorem spawnHearts_removed_witness :
    (1600 + 40 * (12 - 1) ≤ 2040 ∧ 3 < 12 ∧
      ∀ x ∈ (advance 2040 (spawnHearts exampleHost 0 12 initialPage)).hearts,
        x.id ≠ initialPage.heartSeq + 3) ∧
    (∀ x ∈ (run (spawnHearts exampleHost 0 12 initialPage)
        [Event.advance 1000, Event.themeClick, Event.advance 1040]).hearts,
      x.id ≠ initialPage.heartSeq + 11) :=
  ⟨⟨by decide, by decide,
    (spawnHearts_removed exampleHost 0 12 initialPage).2.2.2.1 2040 (by decide) 3 (by decide)⟩,
   (spawnHearts_removed exampleHost 0 12 initialPage).2.2.2.2
     [Event.advance 1000, Event.themeClick, Event.advance 1040] (by decide) 11 (by decide)⟩

end Happy
